import Mathlib

/-!
Verification of the sudoku-rust solving engine (src/lib.rs).

The Rust source is shallowly embedded: the bit-packed 9x9 `Grid` becomes a
function from linear cell index to a 4-bit value, the `ValueSet` bitmask
becomes a natural number holding a u16 bit pattern, and `SolveState`
carries the grid together with the per-cell candidate cache.  The
recursive solvers are translated twice: once as well-founded recursive
functions mirroring the Rust recursion (`solve_recursive_internal`,
`solve_recursive_internal_par`), and once fuel-indexed (`solveFuel`,
`solveFuelPar`) for kernel evaluation; the two are proved equal whenever
the fuel exceeds the (provably decreasing) candidate-count measure.
-/

set_option maxHeartbeats 1000000
set_option synthInstance.maxSize 2000

/-- Cell values (`CellValue = u8` in the source) are plain naturals: only
0 (EMPTY) and 1..9 for an assigned value. -/
def EMPTY_CELL : Nat := 0

def NUM_CELLS : Nat := 9 * 9

/-- Linear index into the 81-cell grid; `get_index` in the source asserts
`x < 9 && y < 9`, modelled separately by `get_index?`.  This is the
in-range value `y * 9 + x`. -/
def get_index (x y : Nat) : Nat := y * 9 + x

/-- The checked index of the source: `assert!(x < 9 && y < 9)` followed by
`y * 9 + x`; an assertion failure is `none`. -/
def get_index? (x y : Nat) : Option Nat :=
  if x < 9 ∧ y < 9 then some (y * 9 + x) else none

/-- A 9x9 grid, 4 bits per cell (`BitArr` in the source).  `cells i` holds
the bit pattern of cell `i`; reading masks to 4 bits exactly as a 4-bit
field load does. -/
structure Grid where
  cells : Nat → Nat

/-- Reading cell (x, y): load of the 4-bit field at index `y * 9 + x`. -/
def Grid.get (g : Grid) (x y : Nat) : Nat :=
  g.cells (get_index x y) % 16

/-- Writing cell (x, y): store into the 4-bit field (truncating to 4 bits). -/
def Grid.set (g : Grid) (val : Nat) (x y : Nat) : Grid :=
  ⟨fun i => if i = get_index x y then val else g.cells i⟩

/-- `Grid::get` including the `get_index` assertion: out-of-range
coordinates abort (`none`). -/
def Grid.get? (g : Grid) (x y : Nat) : Option Nat :=
  (get_index? x y).map (fun i => g.cells i % 16)

/-- `Grid::set` including the `get_index` assertion: out-of-range
coordinates abort (`none`); the value itself is stored unchecked,
truncated to the 4-bit field. -/
def Grid.set? (g : Grid) (val : Nat) (x y : Nat) : Option Grid :=
  (get_index? x y).map (fun i => ⟨fun j => if j = i then val else g.cells j⟩)

/-- `Grid::new` filling the 81 cells from a slice (row-major). -/
def Grid.ofList (values : List Nat) : Grid :=
  ⟨fun i => values.getD i 0⟩

/-- Represents a set of the values 1..9, as the u16 bitmask of the source:
bit (v - 1) set means digit v is a member. -/
structure ValueSet where
  bits : Nat
deriving DecidableEq

def ValueSet.empty : ValueSet := ⟨0⟩

def ValueSet.full : ValueSet := ⟨0b111111111⟩

/-- Membership: false for `EMPTY_CELL`, otherwise bit (value - 1). -/
def ValueSet.contains (s : ValueSet) (value : Nat) : Bool :=
  if value = EMPTY_CELL then false else s.bits.testBit (value - 1)

/-- Number of members: `count_ones` of the u16. -/
def ValueSet.count (s : ValueSet) : Nat :=
  (List.range 16).countP (fun i => s.bits.testBit i)

/-- Adding a digit: no-op for `EMPTY_CELL`, otherwise `|=` of its bit. -/
def ValueSet.add (s : ValueSet) (value : Nat) : ValueSet :=
  if value = EMPTY_CELL then s else ⟨s.bits ||| (1 <<< (value - 1))⟩

/-- Removing a digit: no-op for `EMPTY_CELL`, otherwise `&= !bit` on the
u16 (the complement of the bit within 16 bits). -/
def ValueSet.remove (s : ValueSet) (value : Nat) : ValueSet :=
  if value = EMPTY_CELL then s else ⟨s.bits &&& ((2 ^ 16 - 1) ^^^ (1 <<< (value - 1)))⟩

def ValueSet.clear (_s : ValueSet) : ValueSet := ⟨0⟩

/-- Iteration over a `ValueSet` yields its members in ascending order; the
source iterator probes the values 0..9 in turn (0 is never a member). -/
def ValueSet.toList (s : ValueSet) : List Nat :=
  (List.range 10).filter (fun v => s.contains v)

/-- Cells of row y in the order the source scans them. -/
def rowCells (y : Nat) : List (Nat × Nat) :=
  (List.range 9).map (fun cx => (cx, y))

/-- Cells of column x in the order the source scans them. -/
def colCells (x : Nat) : List (Nat × Nat) :=
  (List.range 9).map (fun cy => (x, cy))

/-- Cells of the 3x3 box with origin `(x / 3 * 3, y / 3 * 3)`, scanned row
by row as in the source. -/
def boxCells (x y : Nat) : List (Nat × Nat) :=
  (List.range 3).flatMap (fun dy => (List.range 3).map (fun dx => (x / 3 * 3 + dx, y / 3 * 3 + dy)))

/-- The three unit scans performed by `get_candidates` and
`remove_val_from_peers`: row, then column, then box. -/
def peerCells (x y : Nat) : List (Nat × Nat) :=
  rowCells y ++ colCells x ++ boxCells x y

/-- Folding the removals of the scanned cell values over a start set. -/
def scanCells (g : Grid) (ps : List (Nat × Nat)) (s : ValueSet) : ValueSet :=
  ps.foldl (fun acc p => acc.remove (g.get p.1 p.2)) s

/-- Candidates of a cell: the empty set for an assigned cell, otherwise
the full set minus every value present in the row, column and box. -/
def get_candidates (g : Grid) (x y : Nat) : ValueSet :=
  if g.get x y ≠ EMPTY_CELL then ValueSet.empty
  else scanCells g (peerCells x y) ValueSet.full

/-- All 81 cells in the row-major order the source loops use
(y outer, x inner). -/
def allCells : List (Nat × Nat) :=
  (List.range 9).flatMap (fun y => (List.range 9).map (fun x => (x, y)))

/-- A grid plus the up-to-date candidate cache for each cell. -/
structure SolveState where
  grid : Grid
  candidates : Nat → ValueSet

/-- `SolveState::new`: candidates of every cell computed fresh via
`get_candidates(grid, i % 9, i / 9)`. -/
def SolveState.new (grid : Grid) : SolveState :=
  ⟨grid, fun i => get_candidates grid (i % 9) (i / 9)⟩

/-- True iff some empty cell has zero remaining candidates. -/
def SolveState.deadlocked (s : SolveState) : Bool :=
  allCells.any (fun p =>
    s.grid.get p.1 p.2 == EMPTY_CELL && (s.candidates (get_index p.1 p.2)).count == 0)

/-- One update step of `remove_val_from_peers`: remove `val` from the
candidate set stored at the index of cell p. -/
def removePeerStep (val : Nat) (c : Nat → ValueSet) (p : Nat × Nat) : Nat → ValueSet :=
  fun i => if i = get_index p.1 p.2 then (c (get_index p.1 p.2)).remove val else c i

/-- Remove `val` from the candidate sets of every cell in the row, the
column and the box of (x, y) — the source's three constrain loops. -/
def SolveState.remove_val_from_peers (s : SolveState) (val : Nat) (x y : Nat) : SolveState :=
  { s with candidates := (peerCells x y).foldl (removePeerStep val) s.candidates }

/-- The new state built by `assign` before its deadlock test: value
written, that cell's candidates cleared, value removed from all peers. -/
def SolveState.assignState (s : SolveState) (val : Nat) (x y : Nat) : SolveState :=
  SolveState.remove_val_from_peers
    { grid := s.grid.set val x y,
      candidates := fun i => if i = get_index x y then (s.candidates i).clear else s.candidates i }
    val x y

/-- `SolveState::assign` as written in the source: builds the copy, then
tests `self.deadlocked()` — the receiver, not the copy — and returns the
copy unless the receiver was deadlocked. -/
def SolveState.assign (s : SolveState) (val : Nat) (x y : Nat) : Option SolveState :=
  if s.deadlocked then none else some (s.assignState val x y)

/-- True iff no cell holds `EMPTY_CELL`. -/
def SolveState.is_solved (s : SolveState) : Bool :=
  allCells.all (fun p => !(s.grid.get p.1 p.2 == EMPTY_CELL))

/-- One step of the `candidate_fewest_choices` scan: adopt cell i when its
candidate count is positive and strictly below the best so far. -/
def cfcStep (s : SolveState) (acc : Nat × Option Nat) (i : Nat) : Nat × Option Nat :=
  let count := (s.candidates i).count
  if 0 < count ∧ count < acc.1 then (count, some i) else acc

/-- Scan all 81 cells for the first cell attaining the smallest positive
candidate count; `99` and `none` model the source's sentinels. -/
def SolveState.candidate_fewest_choices (s : SolveState) : Option (ValueSet × Nat × Nat) :=
  match ((List.range NUM_CELLS).foldl (cfcStep s) (99, none)).2 with
  | some best_i => some (s.candidates best_i, best_i % 9, best_i / 9)
  | none => none

/-- Total candidate count over the 81 cells: the termination measure of
the search (every `assign` clears the chosen cell's positive count and
only ever shrinks others). -/
def SolveState.totalCands (s : SolveState) : Nat :=
  ((List.range NUM_CELLS).map (fun i => (s.candidates i).count)).sum

-- sanity checks on the data model
example : (ValueSet.full.remove 3).contains 3 = false := by decide
example : (ValueSet.full.remove 3).count = 8 := by decide
example : ValueSet.full.toList = [1, 2, 3, 4, 5, 6, 7, 8, 9] := by decide
example : ((Grid.ofList (List.replicate 81 0)).set 5 2 1).get 2 1 = 5 := by decide
example : get_candidates (Grid.ofList ([0, 0, 3, 4, 5, 6, 7, 8, 9] ++ List.replicate 72 0)) 0 0
    = ⟨0b11⟩ := by decide


/-! ### Basic facts about `ValueSet` -/

theorem EMPTY_CELL_eq_zero : EMPTY_CELL = 0 := rfl

theorem ValueSet.bits_remove_le (s : ValueSet) (v : Nat) : (s.remove v).bits ≤ s.bits := by
  rw [ValueSet.remove]
  split
  · exact Nat.le_refl _
  · exact Nat.and_le_left

theorem ValueSet.remove_remove (s : ValueSet) (v : Nat) :
    (s.remove v).remove v = s.remove v := by
  by_cases hv : v = EMPTY_CELL
  · simp [ValueSet.remove, hv]
  · simp only [ValueSet.remove, if_neg hv]
    simp [Nat.and_assoc]

theorem ValueSet.contains_remove (s : ValueSet) (v w : Nat) (h1 : 1 ≤ w) (h9 : w ≤ 9) :
    (s.remove v).contains w = (s.contains w && !(w == v)) := by
  have hw : ¬ (w = EMPTY_CELL) := by rw [EMPTY_CELL_eq_zero]; omega
  by_cases hv : v = EMPTY_CELL
  · have hwv : (w == v) = false := by
      rw [hv, EMPTY_CELL_eq_zero]
      simp
      omega
    have hrs : s.remove v = s := by simp [ValueSet.remove, hv]
    rw [hrs, hwv]
    simp
  · simp only [ValueSet.remove, ValueSet.contains, if_neg hv, if_neg hw]
    rw [Nat.testBit_and, Nat.testBit_xor, Nat.shiftLeft_eq, Nat.one_mul, Nat.testBit_two_pow,
      Nat.testBit_two_pow_sub_one]
    have hv1 : 1 ≤ v := by rw [EMPTY_CELL_eq_zero] at hv; omega
    have e1 : (decide (w - 1 < 16)) = true := decide_eq_true (by omega)
    by_cases hvw : w = v
    · have e2 : (decide (v - 1 = w - 1)) = true := decide_eq_true (by omega)
      have e3 : (w == v) = true := by simp [hvw]
      rw [e1, e2, e3]
      simp
    · have e2 : (decide (v - 1 = w - 1)) = false := by
        simp only [decide_eq_false_iff_not]
        omega
      have e3 : (w == v) = false := by simp [hvw]
      rw [e1, e2, e3]
      simp

theorem ValueSet.count_le_16 (s : ValueSet) : s.count ≤ 16 := by
  calc s.count ≤ (List.range 16).length := List.countP_le_length _
  _ = 16 := by simp

theorem ValueSet.count_mono_bits (s t : ValueSet)
    (h : ∀ i, i < 16 → s.bits.testBit i = true → t.bits.testBit i = true) :
    s.count ≤ t.count := by
  apply List.countP_mono_left
  intro i hi hp
  exact h i (List.mem_range.mp hi) hp

theorem ValueSet.count_remove_le (s : ValueSet) (v : Nat) :
    (s.remove v).count ≤ s.count := by
  apply ValueSet.count_mono_bits
  intro i _ hb
  rw [ValueSet.remove] at hb
  split at hb
  · exact hb
  · rw [Nat.testBit_and] at hb
    exact (Bool.and_eq_true _ _ |>.mp hb).1

theorem ValueSet.count_clear (s : ValueSet) : (ValueSet.clear s).count = 0 := by
  rw [ValueSet.clear, ValueSet.count]
  simp

theorem ValueSet.count_empty : ValueSet.empty.count = 0 := by
  rw [ValueSet.empty, ValueSet.count]
  simp

theorem ValueSet.remove_zero_bits (v : Nat) : ((⟨0⟩ : ValueSet).remove v) = ⟨0⟩ := by
  rw [ValueSet.remove]
  split
  · rfl
  · simp

theorem ValueSet.contains_bound (s : ValueSet) (w : Nat) (hlt : s.bits < 512)
    (h : s.contains w = true) : 1 ≤ w ∧ w ≤ 9 := by
  by_cases hw : w = EMPTY_CELL
  · rw [ValueSet.contains, if_pos hw] at h
    exact absurd h (by simp)
  · have hw0 : 1 ≤ w := by rw [EMPTY_CELL_eq_zero] at hw; omega
    refine ⟨hw0, ?_⟩
    rw [ValueSet.contains, if_neg hw] at h
    by_contra hgt
    have h2 : (512 : Nat) ≤ 2 ^ (w - 1) := by
      calc (512 : Nat) = 2 ^ 9 := by norm_num
      _ ≤ 2 ^ (w - 1) := Nat.pow_le_pow_right (by omega) (by omega)
    rw [Nat.testBit_lt_two_pow (by omega)] at h
    exact absurd h (by simp)

theorem ValueSet.pos_count_of_contains (s : ValueSet) (w : Nat) (h9 : w ≤ 9)
    (h : s.contains w = true) : 0 < s.count := by
  by_cases hw : w = EMPTY_CELL
  · rw [ValueSet.contains, if_pos hw] at h
    exact absurd h (by simp)
  · have hw0 : 1 ≤ w := by rw [EMPTY_CELL_eq_zero] at hw; omega
    rw [ValueSet.contains, if_neg hw] at h
    rw [ValueSet.count, List.countP_pos_iff]
    exact ⟨w - 1, List.mem_range.mpr (by omega), h⟩

theorem ValueSet.count_zero_iff (s : ValueSet) :
    s.count = 0 ↔ ∀ i, i < 16 → s.bits.testBit i = false := by
  rw [ValueSet.count, List.countP_eq_zero]
  constructor
  · intro h i hi
    have := h i (List.mem_range.mpr hi)
    simpa using this
  · intro h i hi
    simp [h i (List.mem_range.mp hi)]

theorem ValueSet.ext_contains (s t : ValueSet) (hs : s.bits < 512) (ht : t.bits < 512)
    (h : ∀ w, 1 ≤ w → w ≤ 9 → s.contains w = t.contains w) : s = t := by
  have hbits : s.bits = t.bits := by
    apply Nat.eq_of_testBit_eq
    intro i
    by_cases hi : i < 9
    · have hcw := h (i + 1) (by omega) (by omega)
      rw [ValueSet.contains, ValueSet.contains] at hcw
      have hne : ¬ (i + 1 = EMPTY_CELL) := by rw [EMPTY_CELL_eq_zero]; omega
      rw [if_neg hne, if_neg hne] at hcw
      simpa using hcw
    · have h2 : (512 : Nat) ≤ 2 ^ i := by
        calc (512 : Nat) = 2 ^ 9 := by norm_num
        _ ≤ 2 ^ i := Nat.pow_le_pow_right (by omega) (by omega)
      rw [Nat.testBit_lt_two_pow (by omega), Nat.testBit_lt_two_pow (by omega)]
  cases s
  cases t
  simpa using hbits

theorem ValueSet.contains_toList (s : ValueSet) (w : Nat) :
    w ∈ s.toList ↔ w < 10 ∧ s.contains w = true := by
  rw [ValueSet.toList]
  simp [List.mem_filter]

/-! ### Cell lists, peers and units -/

/-- Two cells lie in a common unit: same row, same column or same box. -/
def sameUnit (x1 y1 x2 y2 : Nat) : Prop :=
  y1 = y2 ∨ x1 = x2 ∨ (x1 / 3 = x2 / 3 ∧ y1 / 3 = y2 / 3)

theorem sameUnit_symm {x1 y1 x2 y2 : Nat} (h : sameUnit x1 y1 x2 y2) : sameUnit x2 y2 x1 y1 := by
  unfold sameUnit at *
  omega

theorem sameUnit_refl (x y : Nat) : sameUnit x y x y := Or.inl rfl

theorem mem_rowCells {a b y : Nat} : (a, b) ∈ rowCells y ↔ a < 9 ∧ b = y := by
  simp only [rowCells, List.mem_map, List.mem_range, Prod.mk.injEq]
  constructor
  · rintro ⟨cx, hcx, h1, h2⟩
    omega
  · rintro ⟨h1, h2⟩
    exact ⟨a, h1, rfl, h2.symm⟩

theorem mem_colCells {a b x : Nat} : (a, b) ∈ colCells x ↔ b < 9 ∧ a = x := by
  simp only [colCells, List.mem_map, List.mem_range, Prod.mk.injEq]
  constructor
  · rintro ⟨cy, hcy, h1, h2⟩
    omega
  · rintro ⟨h1, h2⟩
    exact ⟨b, h1, h2.symm, rfl⟩

theorem mem_boxCells {a b x y : Nat} (hx : x < 9) (hy : y < 9) :
    (a, b) ∈ boxCells x y ↔ a / 3 = x / 3 ∧ b / 3 = y / 3 := by
  simp only [boxCells, List.mem_flatMap, List.mem_map, List.mem_range]
  constructor
  · rintro ⟨dy, hdy, dx, hdx, heq⟩
    rw [Prod.mk.injEq] at heq
    omega
  · rintro ⟨h1, h2⟩
    exact ⟨b - y / 3 * 3, by omega, a - x / 3 * 3, by omega, by rw [Prod.mk.injEq]; omega⟩

theorem mem_peerCells {a b x y : Nat} (hx : x < 9) (hy : y < 9) :
    (a, b) ∈ peerCells x y ↔ a < 9 ∧ b < 9 ∧ sameUnit a b x y := by
  rw [peerCells, List.mem_append, List.mem_append, mem_rowCells, mem_colCells,
    mem_boxCells hx hy, sameUnit]
  omega

theorem self_mem_peerCells {x y : Nat} (hx : x < 9) (hy : y < 9) : (x, y) ∈ peerCells x y :=
  (mem_peerCells hx hy).mpr ⟨hx, hy, sameUnit_refl x y⟩

theorem mem_allCells {a b : Nat} : (a, b) ∈ allCells ↔ a < 9 ∧ b < 9 := by
  simp only [allCells, List.mem_flatMap, List.mem_map, List.mem_range, Prod.mk.injEq]
  constructor
  · rintro ⟨cy, hcy, cx, hcx, h1, h2⟩
    omega
  · rintro ⟨h1, h2⟩
    exact ⟨b, h2, a, h1, rfl, rfl⟩

theorem get_index_inj {a b x y : Nat} (ha : a < 9) (hb : b < 9) (hx : x < 9) (hy : y < 9) :
    get_index a b = get_index x y ↔ a = x ∧ b = y := by
  unfold get_index
  omega

theorem get_index_lt {x y : Nat} (hx : x < 9) (hy : y < 9) : get_index x y < 81 := by
  unfold get_index
  omega

/-! ### Scanning and `get_candidates` -/

theorem beq_symm_nat (a b : Nat) : (a == b) = (b == a) := by
  by_cases h : a = b
  · simp [h]
  · simp [h, Ne.symm h]

theorem scanCells_cons (g : Grid) (p : Nat × Nat) (ps : List (Nat × Nat)) (s : ValueSet) :
    scanCells g (p :: ps) s = scanCells g ps (s.remove (g.get p.1 p.2)) := rfl

theorem scanCells_bits_le (g : Grid) (ps : List (Nat × Nat)) (s : ValueSet) :
    (scanCells g ps s).bits ≤ s.bits := by
  induction ps generalizing s with
  | nil => exact Nat.le_refl _
  | cons p ps ih =>
    rw [scanCells_cons]
    exact Nat.le_trans (ih _) (ValueSet.bits_remove_le _ _)

theorem contains_scanCells (g : Grid) (ps : List (Nat × Nat)) (s : ValueSet) (w : Nat)
    (h1 : 1 ≤ w) (h9 : w ≤ 9) :
    (scanCells g ps s).contains w
      = (s.contains w && ps.all (fun p => !(g.get p.1 p.2 == w))) := by
  induction ps generalizing s with
  | nil => simp [scanCells]
  | cons p ps ih =>
    rw [scanCells_cons, ih, ValueSet.contains_remove _ _ _ h1 h9, List.all_cons,
      beq_symm_nat w (g.get p.1 p.2), Bool.and_assoc]

theorem ValueSet.contains_full (w : Nat) (h1 : 1 ≤ w) (h9 : w ≤ 9) :
    ValueSet.full.contains w = true := by
  have hne : ¬ (w = EMPTY_CELL) := by rw [EMPTY_CELL_eq_zero]; omega
  rw [ValueSet.contains, if_neg hne]
  show Nat.testBit 511 (w - 1) = true
  have h511 : (511 : Nat) = 2 ^ 9 - 1 := by norm_num
  rw [h511, Nat.testBit_two_pow_sub_one]
  simp only [decide_eq_true_eq]
  omega

theorem get_candidates_bits_lt (g : Grid) (x y : Nat) : (get_candidates g x y).bits < 512 := by
  rw [get_candidates]
  split
  · rw [ValueSet.empty]
    norm_num
  · have hle := scanCells_bits_le g (peerCells x y) ValueSet.full
    have hfull : ValueSet.full.bits = 511 := rfl
    omega

theorem get_candidates_of_assigned (g : Grid) (x y : Nat) (h : g.get x y ≠ EMPTY_CELL) :
    get_candidates g x y = ValueSet.empty := by
  rw [get_candidates, if_pos h]

theorem contains_get_candidates (g : Grid) (x y w : Nat) (h1 : 1 ≤ w) (h9 : w ≤ 9) :
    (get_candidates g x y).contains w
      = ((g.get x y == EMPTY_CELL) && (peerCells x y).all (fun p => !(g.get p.1 p.2 == w))) := by
  rw [get_candidates]
  by_cases hc : g.get x y = EMPTY_CELL
  · rw [if_neg (by simpa using hc), contains_scanCells g _ _ w h1 h9,
      ValueSet.contains_full w h1 h9]
    simp [hc]
  · rw [if_pos hc]
    have : (g.get x y == EMPTY_CELL) = false := by simpa using hc
    rw [this]
    simp [ValueSet.empty, ValueSet.contains]

/-! ### Propagation: `remove_val_from_peers` and `assignState` -/

theorem foldl_removePeerStep (v : Nat) (ps : List (Nat × Nat)) (c : Nat → ValueSet) (i : Nat) :
    (ps.foldl (removePeerStep v) c) i
      = if ∃ p ∈ ps, get_index p.1 p.2 = i then (c i).remove v else c i := by
  induction ps generalizing c with
  | nil => simp
  | cons p ps ih =>
    rw [List.foldl_cons, ih]
    by_cases hp : i = get_index p.1 p.2
    · have hmem : ∃ q ∈ p :: ps, get_index q.1 q.2 = i := ⟨p, List.mem_cons_self p ps, hp.symm⟩
      rw [if_pos hmem]
      by_cases hq : ∃ q ∈ ps, get_index q.1 q.2 = i
      · rw [if_pos hq]
        simp only [removePeerStep, if_pos hp]
        rw [← hp, ValueSet.remove_remove]
      · rw [if_neg hq]
        simp only [removePeerStep, if_pos hp]
        rw [← hp]
    · by_cases hq : ∃ q ∈ ps, get_index q.1 q.2 = i
      · have hmem : ∃ q ∈ p :: ps, get_index q.1 q.2 = i := by
          obtain ⟨q, hq1, hq2⟩ := hq
          exact ⟨q, List.mem_cons_of_mem p hq1, hq2⟩
        rw [if_pos hq, if_pos hmem]
        simp only [removePeerStep, if_neg hp]
      · have hmem : ¬ ∃ q ∈ p :: ps, get_index q.1 q.2 = i := by
          rintro ⟨q, hq1, hq2⟩
          rcases List.mem_cons.mp hq1 with rfl | hq3
          · exact hp hq2.symm
          · exact hq ⟨q, hq3, hq2⟩
        rw [if_neg hq, if_neg hmem]
        simp only [removePeerStep, if_neg hp]

theorem assignState_grid (s : SolveState) (v x y : Nat) :
    (s.assignState v x y).grid = s.grid.set v x y := rfl

theorem assignState_candidates (s : SolveState) (v x y i : Nat) :
    (s.assignState v x y).candidates i
      = (if ∃ p ∈ peerCells x y, get_index p.1 p.2 = i
          then ((if i = get_index x y then (s.candidates i).clear else s.candidates i).remove v)
          else (if i = get_index x y then (s.candidates i).clear else s.candidates i)) := by
  show ((peerCells x y).foldl (removePeerStep v)
      (fun j => if j = get_index x y then (s.candidates j).clear else s.candidates j)) i = _
  rw [foldl_removePeerStep]

theorem Grid.get_set (g : Grid) (v x y a b : Nat) :
    (g.set v x y).get a b
      = if get_index a b = get_index x y then v % 16 else g.get a b := by
  by_cases h : get_index a b = get_index x y
  · simp [Grid.get, Grid.set, h]
  · simp [Grid.get, Grid.set, h]

/-! ### Deadlock, solvedness -/

theorem deadlocked_iff (s : SolveState) :
    s.deadlocked = true
      ↔ ∃ a b, a < 9 ∧ b < 9 ∧ s.grid.get a b = EMPTY_CELL
          ∧ (s.candidates (get_index a b)).count = 0 := by
  rw [SolveState.deadlocked, List.any_eq_true]
  constructor
  · rintro ⟨⟨a, b⟩, hp, hcond⟩
    obtain ⟨ha, hb⟩ := mem_allCells.mp hp
    simp only [Bool.and_eq_true, beq_iff_eq] at hcond
    exact ⟨a, b, ha, hb, hcond.1, hcond.2⟩
  · rintro ⟨a, b, ha, hb, h1, h2⟩
    exact ⟨(a, b), mem_allCells.mpr ⟨ha, hb⟩, by simp [h1, h2]⟩

theorem deadlocked_false_iff (s : SolveState) :
    s.deadlocked = false
      ↔ ∀ a b, a < 9 → b < 9 → s.grid.get a b = EMPTY_CELL
          → (s.candidates (get_index a b)).count ≠ 0 := by
  rw [← Bool.not_eq_true, deadlocked_iff]
  push_neg
  constructor
  · intro h a b ha hb hc
    exact h a b ha hb hc
  · intro h a b ha hb hc
    exact h a b ha hb hc

theorem is_solved_iff (s : SolveState) :
    s.is_solved = true ↔ ∀ a b, a < 9 → b < 9 → s.grid.get a b ≠ EMPTY_CELL := by
  rw [SolveState.is_solved, List.all_eq_true]
  constructor
  · intro h a b ha hb
    have := h (a, b) (mem_allCells.mpr ⟨ha, hb⟩)
    simpa using this
  · rintro h ⟨a, b⟩ hp
    obtain ⟨ha, hb⟩ := mem_allCells.mp hp
    simpa using h a b ha hb

/-! ### The fewest-choices scan -/

theorem NUM_CELLS_eq : NUM_CELLS = 81 := rfl

theorem cfc_fold_spec (s : SolveState) (n : Nat) :
    ((((List.range n).foldl (cfcStep s) (99, none)).2 = none →
       (((List.range n).foldl (cfcStep s) (99, none)).1 = 99 ∧
       ∀ j, j < n → (s.candidates j).count = 0)) ∧
    (∀ b, (((List.range n).foldl (cfcStep s) (99, none)).2 = some b →
       b < n ∧ (((List.range n).foldl (cfcStep s) (99, none)).1 = (s.candidates b).count) ∧
       0 < (s.candidates b).count ∧
       (∀ j, j < n → 0 < (s.candidates j).count
          → (s.candidates b).count ≤ (s.candidates j).count) ∧
       (∀ j, j < b → 0 < (s.candidates j).count
          → (s.candidates b).count < (s.candidates j).count)))) := by
  induction n with
  | zero => simp
  | succ n ih =>
    rw [List.range_succ, List.foldl_append, List.foldl_cons, List.foldl_nil]
    simp only [cfcStep]
    by_cases hcond : 0 < (s.candidates n).count
        ∧ (s.candidates n).count < ((List.range n).foldl (cfcStep s) (99, none)).1
    · rw [if_pos hcond]
      constructor
      · intro h
        cases h
      · intro b hb
        injection hb with hb
        subst hb
        refine ⟨Nat.lt_succ_self n, rfl, hcond.1, ?_, ?_⟩
        · intro j hj hjpos
          rcases Nat.lt_succ_iff_lt_or_eq.mp hj with hj' | rfl
          · rcases hacc : ((List.range n).foldl (cfcStep s) (99, none)).2 with _ | b0
            · have := (ih.1 hacc).2 j hj'
              omega
            · have := (ih.2 b0 hacc).2.2.2.1 j hj' hjpos
              have h1 := (ih.2 b0 hacc).2.1
              omega
          · exact Nat.le_refl _
        · intro j hj hjpos
          rcases hacc : ((List.range n).foldl (cfcStep s) (99, none)).2 with _ | b0
          · have := (ih.1 hacc).2 j hj
            omega
          · have := (ih.2 b0 hacc).2.2.2.1 j hj hjpos
            have h1 := (ih.2 b0 hacc).2.1
            omega
    · rw [if_neg hcond]
      constructor
      · intro h
        have hih := ih.1 h
        refine ⟨hih.1, ?_⟩
        intro j hj
        rcases Nat.lt_succ_iff_lt_or_eq.mp hj with hj' | rfl
        · exact hih.2 j hj'
        · have h16 := ValueSet.count_le_16 (s.candidates j)
          have h99 := hih.1
          omega
      · intro b hb
        have hih := ih.2 b hb
        refine ⟨Nat.lt_succ_of_lt hih.1, hih.2.1, hih.2.2.1, ?_, hih.2.2.2.2⟩
        intro j hj hjpos
        rcases Nat.lt_succ_iff_lt_or_eq.mp hj with hj' | rfl
        · exact hih.2.2.2.1 j hj' hjpos
        · have h1 := hih.2.1
          omega

theorem cfc_none_iff (s : SolveState) :
    s.candidate_fewest_choices = none ↔ ∀ j, j < 81 → (s.candidates j).count = 0 := by
  rw [SolveState.candidate_fewest_choices, NUM_CELLS_eq]
  rcases h : ((List.range 81).foldl (cfcStep s) (99, none)).2 with _ | b
  · simp only []
    constructor
    · intro _
      exact ((cfc_fold_spec s 81).1 h).2
    · intro _
      trivial
  · simp only []
    constructor
    · intro hcontra
      cases hcontra
    · intro hall
      have hb := (cfc_fold_spec s 81).2 b h
      have := hall b hb.1
      omega

theorem cfc_some_spec (s : SolveState) (c : ValueSet) (x y : Nat)
    (h : s.candidate_fewest_choices = some (c, x, y)) :
    ∃ b, b < 81 ∧ c = s.candidates b ∧ x = b % 9 ∧ y = b / 9 ∧
      0 < (s.candidates b).count ∧
      (∀ j, j < 81 → 0 < (s.candidates j).count
        → (s.candidates b).count ≤ (s.candidates j).count) ∧
      (∀ j, j < b → 0 < (s.candidates j).count
        → (s.candidates b).count < (s.candidates j).count) := by
  rw [SolveState.candidate_fewest_choices, NUM_CELLS_eq] at h
  rcases hb : ((List.range 81).foldl (cfcStep s) (99, none)).2 with _ | b
  · rw [hb] at h
    cases h
  · rw [hb] at h
    injection h with h
    injection h with h1 hrest
    injection hrest with h2 h3
    have hspec := (cfc_fold_spec s 81).2 b hb
    exact ⟨b, hspec.1, h1.symm, h2.symm, h3.symm, hspec.2.2.1, hspec.2.2.2.1, hspec.2.2.2.2⟩

theorem cfc_bound {s : SolveState} {c : ValueSet} {x y : Nat}
    (h : s.candidate_fewest_choices = some (c, x, y)) :
    x < 9 ∧ y < 9 ∧ 0 < (s.candidates (get_index x y)).count := by
  obtain ⟨b, hb81, hc, hx, hy, hpos, _, _⟩ := cfc_some_spec s c x y h
  subst hx
  subst hy
  refine ⟨by omega, by omega, ?_⟩
  have hidx : get_index (b % 9) (b / 9) = b := by
    unfold get_index
    omega
  rw [hidx]
  exact hpos

/-! ### The termination measure -/

theorem list_map_sum_lt (l : List Nat) (f g : Nat → Nat)
    (hle : ∀ i ∈ l, f i ≤ g i) (hlt : ∃ i ∈ l, f i < g i) :
    (l.map f).sum < (l.map g).sum := by
  induction l with
  | nil => simp at hlt
  | cons a l ih =>
    simp only [List.map_cons, List.sum_cons]
    rcases hlt with ⟨i, hi, hfg⟩
    rcases List.mem_cons.mp hi with rfl | hmem
    · have hsum : (l.map f).sum ≤ (l.map g).sum :=
        List.sum_le_sum (fun i hi => hle i (List.mem_cons_of_mem _ hi))
      omega
    · have hfa : f a ≤ g a := hle a (List.mem_cons_self a l)
      have := ih (fun i hi => hle i (List.mem_cons_of_mem a hi)) ⟨i, hmem, hfg⟩
      omega

theorem assignState_candidates_count_le (s : SolveState) (v x y i : Nat) :
    ((s.assignState v x y).candidates i).count ≤ (s.candidates i).count := by
  rw [assignState_candidates]
  by_cases hpeer : ∃ p ∈ peerCells x y, get_index p.1 p.2 = i
  · rw [if_pos hpeer]
    by_cases hi : i = get_index x y
    · rw [if_pos hi]
      have h1 := ValueSet.count_remove_le ((s.candidates i).clear) v
      have h2 := ValueSet.count_clear (s.candidates i)
      omega
    · rw [if_neg hi]
      exact ValueSet.count_remove_le _ _
  · rw [if_neg hpeer]
    by_cases hi : i = get_index x y
    · rw [if_pos hi]
      have h2 := ValueSet.count_clear (s.candidates i)
      omega
    · rw [if_neg hi]

theorem assignState_candidates_count_at (s : SolveState) (v x y : Nat)
    (hx : x < 9) (hy : y < 9) :
    ((s.assignState v x y).candidates (get_index x y)).count = 0 := by
  rw [assignState_candidates]
  have hpeer : ∃ p ∈ peerCells x y, get_index p.1 p.2 = get_index x y :=
    ⟨(x, y), self_mem_peerCells hx hy, rfl⟩
  rw [if_pos hpeer, if_pos rfl]
  have h1 := ValueSet.count_remove_le ((s.candidates (get_index x y)).clear) v
  have h2 := ValueSet.count_clear (s.candidates (get_index x y))
  omega

theorem assignState_totalCands_lt (s : SolveState) (v x y : Nat)
    (hx : x < 9) (hy : y < 9) (hpos : 0 < (s.candidates (get_index x y)).count) :
    (s.assignState v x y).totalCands < s.totalCands := by
  rw [SolveState.totalCands, SolveState.totalCands]
  apply list_map_sum_lt
  · intro i _
    exact assignState_candidates_count_le s v x y i
  · refine ⟨get_index x y, List.mem_range.mpr ?_, ?_⟩
    · rw [NUM_CELLS_eq]
      exact get_index_lt hx hy
    · rw [assignState_candidates_count_at s v x y hx hy]
      exact hpos

/-! ### `assign` -/

theorem assign_eq_some {s t : SolveState} {v x y : Nat} (h : s.assign v x y = some t) :
    t = s.assignState v x y ∧ s.deadlocked = false := by
  rw [SolveState.assign] at h
  by_cases hd : s.deadlocked = true
  · rw [if_pos (by simpa using hd)] at h
    cases h
  · rw [if_neg (by simpa using hd)] at h
    injection h with h
    exact ⟨h.symm, by simpa using hd⟩

theorem assign_of_not_deadlocked (s : SolveState) (v x y : Nat) (h : s.deadlocked = false) :
    s.assign v x y = some (s.assignState v x y) := by
  rw [SolveState.assign]
  simp [h]

theorem assign_of_deadlocked (s : SolveState) (v x y : Nat) (h : s.deadlocked = true) :
    s.assign v x y = none := by
  rw [SolveState.assign]
  simp [h]

/-! ### The solvers

The Rust recursion is general recursion; here it is translated with a
well-founded guard `branch.totalCands < s.totalCands` on each recursive
call.  The guard is provably always true on the branches the loop
actually reaches (`solve_internal_go` below removes it), so the
definitions compute exactly what the source computes. -/

/-- The candidate loop shared by both solvers: try each value in order;
on the first branch whose recursive solve succeeds, return its result. -/
def goStep (solveB : SolveState → Option SolveState) (s : SolveState) (x y : Nat) :
    List Nat → Option SolveState
  | [] => none
  | v :: rest =>
    match s.assign v x y with
    | some branch =>
      match solveB branch with
      | some result => some result
      | none => goStep solveB s x y rest
    | none => goStep solveB s x y rest

/-- `solve_recursive_internal`: if solved return the state, else pick the
fewest-choices cell and try its candidates in ascending order. -/
def solve_recursive_internal (s : SolveState) : Option SolveState :=
  if s.is_solved then some s
  else
    match s.candidate_fewest_choices with
    | some (cands, x, y) =>
      goStep (fun branch =>
        if hdec : branch.totalCands < s.totalCands then solve_recursive_internal branch
        else none) s x y cands.toList
    | none => none
termination_by s.totalCands
decreasing_by exact hdec

/-- `solve_recursive_internal_par`: identical branching structure; the
(rayon) parallel map of the source keeps candidate order, and
`find_first` returns the first some-result in that order. -/
def solve_recursive_internal_par (s : SolveState) : Option SolveState :=
  if s.is_solved then some s
  else
    match s.candidate_fewest_choices with
    | some (cands, x, y) =>
      let sub_results := cands.toList.map (fun c =>
        match s.assign c x y with
        | some branch =>
          if hdec : branch.totalCands < s.totalCands then solve_recursive_internal_par branch
          else none
        | none => none)
      match sub_results.find? (fun st => st.isSome) with
      | some r => r
      | none => none
    | none => none
termination_by s.totalCands
decreasing_by exact hdec

def solve_recursive (grid : Grid) : Option Grid :=
  (solve_recursive_internal (SolveState.new grid)).map (fun st => st.grid)

def solve_recursive_par (grid : Grid) : Option Grid :=
  (solve_recursive_internal_par (SolveState.new grid)).map (fun st => st.grid)

/-! ### Fuel-indexed twins (structural, hence kernel-computable) -/

def solveFuel : Nat → SolveState → Option SolveState
  | 0, _ => none
  | fuel + 1, s =>
    if s.is_solved then some s
    else
      match s.candidate_fewest_choices with
      | some (cands, x, y) => goStep (solveFuel fuel) s x y cands.toList
      | none => none

def solveFuelPar : Nat → SolveState → Option SolveState
  | 0, _ => none
  | fuel + 1, s =>
    if s.is_solved then some s
    else
      match s.candidate_fewest_choices with
      | some (cands, x, y) =>
        match (cands.toList.map (fun c =>
            match s.assign c x y with
            | some branch => solveFuelPar fuel branch
            | none => none)).find? (fun st => st.isSome) with
        | some r => r
        | none => none
      | none => none

/-- A fully solved, consistent reference grid (the standard cyclic
pattern), used by concrete witnesses below. -/
def solvedList : List Nat :=
  [1, 2, 3, 4, 5, 6, 7, 8, 9,
   4, 5, 6, 7, 8, 9, 1, 2, 3,
   7, 8, 9, 1, 2, 3, 4, 5, 6,
   2, 3, 4, 5, 6, 7, 8, 9, 1,
   5, 6, 7, 8, 9, 1, 2, 3, 4,
   8, 9, 1, 2, 3, 4, 5, 6, 7,
   3, 4, 5, 6, 7, 8, 9, 1, 2,
   6, 7, 8, 9, 1, 2, 3, 4, 5,
   9, 1, 2, 3, 4, 5, 6, 7, 8]

/-- The same grid with cell (0, 0) blanked: a one-cell puzzle. -/
def almostList : List Nat := 0 :: solvedList.tail

example : (solveFuel 2 (SolveState.new (Grid.ofList almostList))).isSome = true := by decide
example : ((solveFuel 2 (SolveState.new (Grid.ofList almostList))).map
    (fun st => st.grid.get 0 0)) = some 1 := by decide

/-! ### Unfolding the well-founded solvers -/

theorem solve_internal_solved {s : SolveState} (h : s.is_solved = true) :
    solve_recursive_internal s = some s := by
  rw [solve_recursive_internal]
  simp [h]

theorem solve_internal_none {s : SolveState} (h1 : s.is_solved = false)
    (h2 : s.candidate_fewest_choices = none) :
    solve_recursive_internal s = none := by
  rw [solve_recursive_internal]
  simp [h1, h2]

theorem goStep_congr (f g : SolveState → Option SolveState) (s : SolveState) (x y : Nat)
    (l : List Nat) (h : ∀ v ∈ l, ∀ t, s.assign v x y = some t → f t = g t) :
    goStep f s x y l = goStep g s x y l := by
  induction l with
  | nil => rfl
  | cons v rest ih =>
    rcases hassign : s.assign v x y with _ | branch
    · simp only [goStep, hassign]
      exact ih (fun v hv t ht => h v (List.mem_cons_of_mem _ hv) t ht)
    · simp only [goStep, hassign]
      rw [h v (List.mem_cons_self _ _) branch hassign]
      rcases g branch with _ | r
      · exact ih (fun v hv t ht => h v (List.mem_cons_of_mem _ hv) t ht)
      · rfl

theorem solve_internal_eq_goStep {s : SolveState} {cands : ValueSet} {x y : Nat}
    (h1 : s.is_solved = false) (h2 : s.candidate_fewest_choices = some (cands, x, y)) :
    solve_recursive_internal s = goStep solve_recursive_internal s x y cands.toList := by
  rw [solve_recursive_internal]
  simp only [h1, Bool.false_eq_true, if_false, h2]
  apply goStep_congr
  intro v _ t ht
  have heq := (assign_eq_some ht).1
  have hb := cfc_bound h2
  have hlt : t.totalCands < s.totalCands := by
    rw [heq]
    exact assignState_totalCands_lt s v x y hb.1 hb.2.1 hb.2.2
  simp [hlt]

/-! ### Equivalence with the fuel-indexed versions -/

theorem solveFuel_eq (n : Nat) : ∀ s : SolveState, s.totalCands < n →
    solveFuel n s = solve_recursive_internal s := by
  induction n with
  | zero =>
    intro s h
    exact absurd h (Nat.not_lt_zero _)
  | succ n ih =>
    intro s hs
    by_cases hsol : s.is_solved = true
    · rw [solve_internal_solved hsol]
      simp [solveFuel, hsol]
    · have hsol' : s.is_solved = false := by
        revert hsol
        cases s.is_solved <;> simp
      rcases hcfc : s.candidate_fewest_choices with _ | ⟨cands, x, y⟩
      · rw [solve_internal_none hsol' hcfc]
        simp [solveFuel, hsol', hcfc]
      · rw [solve_internal_eq_goStep hsol' hcfc]
        have hstep : solveFuel (n + 1) s = goStep (solveFuel n) s x y cands.toList := by
          simp [solveFuel, hsol', hcfc]
        rw [hstep]
        apply goStep_congr
        intro v _ t ht
        have heq := (assign_eq_some ht).1
        have hb := cfc_bound hcfc
        have hlt : t.totalCands < s.totalCands := by
          rw [heq]
          exact assignState_totalCands_lt s v x y hb.1 hb.2.1 hb.2.2
        exact ih t (by omega)

theorem solve_internal_eq_fuel (s : SolveState) :
    solve_recursive_internal s = solveFuel (s.totalCands + 1) s :=
  (solveFuel_eq (s.totalCands + 1) s (Nat.lt_succ_self _)).symm

/-! ### The parallel solver equals the sequential solver -/

theorem solve_internal_par_solved {s : SolveState} (h : s.is_solved = true) :
    solve_recursive_internal_par s = some s := by
  rw [solve_recursive_internal_par]
  simp [h]

theorem solve_internal_par_none {s : SolveState} (h1 : s.is_solved = false)
    (h2 : s.candidate_fewest_choices = none) :
    solve_recursive_internal_par s = none := by
  rw [solve_recursive_internal_par]
  simp [h1, h2]

theorem solve_internal_par_some {s : SolveState} {cands : ValueSet} {x y : Nat}
    (h1 : s.is_solved = false) (h2 : s.candidate_fewest_choices = some (cands, x, y)) :
    solve_recursive_internal_par s
      = match (cands.toList.map (fun c =>
            match s.assign c x y with
            | some branch => solve_recursive_internal_par branch
            | none => none)).find? (fun st => st.isSome) with
        | some r => r
        | none => none := by
  rw [solve_recursive_internal_par]
  simp only [h1, Bool.false_eq_true, if_false, h2]
  have hmap : ∀ c ∈ cands.toList,
      (match s.assign c x y with
       | some branch =>
         if _hd : branch.totalCands < s.totalCands then solve_recursive_internal_par branch
         else none
       | none => (none : Option SolveState))
      = (match s.assign c x y with
         | some branch => solve_recursive_internal_par branch
         | none => none) := by
    intro c _
    rcases hassign : s.assign c x y with _ | branch
    · rfl
    · have heq := (assign_eq_some hassign).1
      have hb := cfc_bound h2
      have hlt : branch.totalCands < s.totalCands := by
        rw [heq]
        exact assignState_totalCands_lt s c x y hb.1 hb.2.1 hb.2.2
      simp [hlt]
  rw [List.map_congr_left hmap]

theorem solveFuelPar_eq (n : Nat) : ∀ s : SolveState, s.totalCands < n →
    solveFuelPar n s = solve_recursive_internal_par s := by
  induction n with
  | zero =>
    intro s h
    exact absurd h (Nat.not_lt_zero _)
  | succ n ih =>
    intro s hs
    by_cases hsol : s.is_solved = true
    · rw [solve_internal_par_solved hsol]
      simp [solveFuelPar, hsol]
    · have hsol' : s.is_solved = false := by
        revert hsol
        cases s.is_solved <;> simp
      rcases hcfc : s.candidate_fewest_choices with _ | ⟨cands, x, y⟩
      · rw [solve_internal_par_none hsol' hcfc]
        simp [solveFuelPar, hsol', hcfc]
      · rw [solve_internal_par_some hsol' hcfc]
        have hstep : solveFuelPar (n + 1) s
            = match (cands.toList.map (fun c =>
                  match s.assign c x y with
                  | some branch => solveFuelPar n branch
                  | none => none)).find? (fun st => st.isSome) with
              | some r => r
              | none => none := by
          simp [solveFuelPar, hsol', hcfc]
        rw [hstep]
        have hmap : ∀ c ∈ cands.toList,
            (match s.assign c x y with
             | some branch => solveFuelPar n branch
             | none => (none : Option SolveState))
            = (match s.assign c x y with
               | some branch => solve_recursive_internal_par branch
               | none => none) := by
          intro c _
          rcases hassign : s.assign c x y with _ | branch
          · rfl
          · have heq := (assign_eq_some hassign).1
            have hb := cfc_bound hcfc
            have hlt : branch.totalCands < s.totalCands := by
              rw [heq]
              exact assignState_totalCands_lt s c x y hb.1 hb.2.1 hb.2.2
            simp only []
            exact ih branch (by omega)
        rw [List.map_congr_left hmap]

theorem find_first_eq_goStep (f : SolveState → Option SolveState) (s : SolveState)
    (x y : Nat) (l : List Nat) :
    (match (l.map (fun c =>
          match s.assign c x y with
          | some branch => f branch
          | none => none)).find? (fun st => st.isSome) with
      | some r => r
      | none => none)
      = goStep f s x y l := by
  induction l with
  | nil => rfl
  | cons v rest ih =>
    rcases hassign : s.assign v x y with _ | branch
    · simp only [List.map_cons, hassign]
      rw [List.find?_cons_of_neg _ (by simp)]
      rw [ih]
      simp [goStep, hassign]
    · simp only [List.map_cons, hassign]
      rcases hres : f branch with _ | r
      · rw [List.find?_cons_of_neg _ (by simp [hres])]
        rw [ih]
        simp [goStep, hassign, hres]
      · rw [List.find?_cons_of_pos _ (by simp [hres])]
        simp [goStep, hassign, hres]

theorem solveFuelPar_eq_solveFuel (n : Nat) : ∀ s : SolveState, solveFuelPar n s = solveFuel n s := by
  induction n with
  | zero =>
    intro s
    rfl
  | succ n ih =>
    intro s
    by_cases hsol : s.is_solved = true
    · simp [solveFuel, solveFuelPar, hsol]
    · have hsol' : s.is_solved = false := by
        revert hsol
        cases s.is_solved <;> simp
      rcases hcfc : s.candidate_fewest_choices with _ | ⟨cands, x, y⟩
      · simp [solveFuel, solveFuelPar, hsol', hcfc]
      · have h1 : solveFuelPar (n + 1) s
            = match (cands.toList.map (fun c =>
                  match s.assign c x y with
                  | some branch => solveFuelPar n branch
                  | none => none)).find? (fun st => st.isSome) with
              | some r => r
              | none => none := by
          simp [solveFuelPar, hsol', hcfc]
        have h2 : solveFuel (n + 1) s = goStep (solveFuel n) s x y cands.toList := by
          simp [solveFuel, hsol', hcfc]
        rw [h1, h2]
        have hmap : ∀ c ∈ cands.toList,
            (match s.assign c x y with
             | some branch => solveFuelPar n branch
             | none => (none : Option SolveState))
            = (match s.assign c x y with
               | some branch => solveFuel n branch
               | none => none) := by
          intro c _
          rcases hassign : s.assign c x y with _ | branch
          · rfl
          · simp only []
            exact ih branch
        rw [List.map_congr_left hmap]
        exact find_first_eq_goStep (solveFuel n) s x y cands.toList

theorem solve_internal_par_eq_solve_internal (s : SolveState) :
    solve_recursive_internal_par s = solve_recursive_internal s := by
  rw [← solveFuelPar_eq (s.totalCands + 1) s (Nat.lt_succ_self _),
    ← solveFuel_eq (s.totalCands + 1) s (Nat.lt_succ_self _)]
  exact solveFuelPar_eq_solveFuel (s.totalCands + 1) s

theorem solve_recursive_par_eq_solve_recursive (g : Grid) :
    solve_recursive_par g = solve_recursive g := by
  rw [solve_recursive_par, solve_recursive, solve_internal_par_eq_solve_internal]

theorem solve_recursive_eq_fuel (g : Grid) :
    solve_recursive g
      = (solveFuel ((SolveState.new g).totalCands + 1) (SolveState.new g)).map
          (fun st => st.grid) := by
  rw [solve_recursive, solve_internal_eq_fuel]

/-! ### Grid-level predicates (the language of the specification) -/

instance (x1 y1 x2 y2 : Nat) : Decidable (sameUnit x1 y1 x2 y2) := by
  unfold sameUnit
  infer_instance

/-- Every cell value lies in 0..9. -/
def ValidGrid (g : Grid) : Prop :=
  ∀ x, x < 9 → ∀ y, y < 9 → g.get x y ≤ 9

/-- No cell is empty. -/
def FullyAssigned (g : Grid) : Prop :=
  ∀ x, x < 9 → ∀ y, y < 9 → g.get x y ≠ EMPTY_CELL

/-- No non-zero value occurs twice in a row, a column or a box. -/
def ConsistentGrid (g : Grid) : Prop :=
  ∀ x1, x1 < 9 → ∀ y1, y1 < 9 → ∀ x2, x2 < 9 → ∀ y2, y2 < 9 →
    sameUnit x1 y1 x2 y2 → (x1 ≠ x2 ∨ y1 ≠ y2) → g.get x1 y1 ≠ EMPTY_CELL →
    g.get x1 y1 ≠ g.get x2 y2

/-- Cells assigned in `g` keep their value in `t` (the frame property). -/
def PreservesAssigned (g t : Grid) : Prop :=
  ∀ x, x < 9 → ∀ y, y < 9 → g.get x y ≠ EMPTY_CELL → t.get x y = g.get x y

theorem PreservesAssigned.refl (g : Grid) : PreservesAssigned g g :=
  fun _ _ _ _ _ => rfl

theorem PreservesAssigned.trans {g t u : Grid} (h1 : PreservesAssigned g t)
    (h2 : PreservesAssigned t u) : PreservesAssigned g u := by
  intro x hx y hy hne
  rw [h2 x hx y hy (by rw [h1 x hx y hy hne]; exact hne), h1 x hx y hy hne]

/-! ### The candidate-cache invariant -/

/-- The cached candidate sets agree with a fresh `get_candidates`
computation on the current grid at every cell. -/
def CandInv (s : SolveState) : Prop :=
  ∀ i, i < 81 → s.candidates i = get_candidates s.grid (i % 9) (i / 9)

theorem CandInv_new (g : Grid) : CandInv (SolveState.new g) := fun _ _ => rfl

theorem Inv_candidates_at (s : SolveState) (hInv : CandInv s) (x y : Nat)
    (hx : x < 9) (hy : y < 9) :
    s.candidates (get_index x y) = get_candidates s.grid x y := by
  have h := hInv (get_index x y) (get_index_lt hx hy)
  have hmod : get_index x y % 9 = x := by unfold get_index; omega
  have hdiv : get_index x y / 9 = y := by unfold get_index; omega
  rw [h, hmod, hdiv]

theorem contains_cand_facts {s : SolveState} {v x y : Nat} (hInv : CandInv s)
    (hx : x < 9) (hy : y < 9)
    (hcand : (s.candidates (get_index x y)).contains v = true) :
    s.grid.get x y = EMPTY_CELL ∧ 1 ≤ v ∧ v ≤ 9 ∧
      ∀ p ∈ peerCells x y, s.grid.get p.1 p.2 ≠ v := by
  rw [Inv_candidates_at s hInv x y hx hy] at hcand
  have hv := ValueSet.contains_bound _ v (get_candidates_bits_lt s.grid x y) hcand
  rw [contains_get_candidates _ _ _ v hv.1 hv.2] at hcand
  obtain ⟨h1, h2⟩ := Bool.and_eq_true _ _ |>.mp hcand
  refine ⟨by simpa using h1, hv.1, hv.2, ?_⟩
  intro p hp
  have := List.all_eq_true.mp h2 p hp
  simpa using this

theorem bool_eq_of_iff {a b : Bool} (h : a = true ↔ b = true) : a = b := by
  cases a <;> cases b <;> simp_all

theorem list_all_congr {α : Type} (l : List α) (f g : α → Bool)
    (h : ∀ a ∈ l, f a = g a) : l.all f = l.all g := by
  induction l with
  | nil => rfl
  | cons a l ih =>
    rw [List.all_cons, List.all_cons, h a (List.mem_cons_self _ _),
      ih (fun b hb => h b (List.mem_cons_of_mem _ hb))]

theorem Grid.get_set_self (g : Grid) (v x y : Nat) : (g.set v x y).get x y = v % 16 := by
  rw [Grid.get_set, if_pos rfl]

theorem Grid.get_set_other (g : Grid) (v x y a b : Nat)
    (h : get_index a b ≠ get_index x y) : (g.set v x y).get a b = g.get a b := by
  rw [Grid.get_set, if_neg h]

theorem get_candidates_set_peer (g : Grid) (v x y a b : Nat)
    (hx : x < 9) (hy : y < 9) (ha : a < 9) (hb : b < 9)
    (hne : ¬ (a = x ∧ b = y)) (hunit : sameUnit a b x y)
    (hempty_xy : g.get x y = EMPTY_CELL) (hv1 : 1 ≤ v) (hv9 : v ≤ 9) :
    get_candidates (g.set v x y) a b = (get_candidates g a b).remove v := by
  have hidx_ne : get_index a b ≠ get_index x y := by
    intro hcontra
    exact hne ((get_index_inj ha hb hx hy).mp hcontra)
  have hgab : (g.set v x y).get a b = g.get a b := Grid.get_set_other g v x y a b hidx_ne
  have hgxy : (g.set v x y).get x y = v := by
    rw [Grid.get_set_self]
    exact Nat.mod_eq_of_lt (by omega)
  by_cases hab : g.get a b = EMPTY_CELL
  · apply ValueSet.ext_contains _ _ (get_candidates_bits_lt _ _ _)
      (Nat.lt_of_le_of_lt (ValueSet.bits_remove_le _ _) (get_candidates_bits_lt _ _ _))
    intro w hw1 hw9
    rw [contains_get_candidates _ _ _ w hw1 hw9, ValueSet.contains_remove _ _ _ hw1 hw9,
      contains_get_candidates _ _ _ w hw1 hw9, hgab,
      show (g.get a b == EMPTY_CELL) = true by simpa using hab, Bool.true_and, Bool.true_and]
    have hxy_mem : (x, y) ∈ peerCells a b :=
      (mem_peerCells ha hb).mpr ⟨hx, hy, sameUnit_symm hunit⟩
    apply bool_eq_of_iff
    rw [List.all_eq_true, Bool.and_eq_true, List.all_eq_true]
    constructor
    · intro hall
      constructor
      · rintro ⟨p1, p2⟩ hp
        obtain ⟨hp1, hp2, _⟩ := (mem_peerCells ha hb).mp hp
        by_cases hpxy : p1 = x ∧ p2 = y
        · rw [hpxy.1, hpxy.2]
          have : ¬ (g.get x y = w) := by rw [hempty_xy, EMPTY_CELL_eq_zero]; omega
          simpa using this
        · have hpne : get_index p1 p2 ≠ get_index x y := by
            intro hcontra
            exact hpxy ((get_index_inj hp1 hp2 hx hy).mp hcontra)
          have := hall (p1, p2) hp
          rw [show ((p1, p2).1 : Nat) = p1 from rfl, show ((p1, p2).2 : Nat) = p2 from rfl,
            Grid.get_set_other g v x y p1 p2 hpne] at this
          exact this
      · have := hall (x, y) hxy_mem
        rw [show ((x, y).1 : Nat) = x from rfl, show ((x, y).2 : Nat) = y from rfl, hgxy] at this
        have hvw : ¬ (v = w) := by simpa using this
        simpa using fun hcontra => hvw hcontra.symm
    · rintro ⟨hall, hwv⟩ ⟨p1, p2⟩ hp
      obtain ⟨hp1, hp2, _⟩ := (mem_peerCells ha hb).mp hp
      by_cases hpxy : p1 = x ∧ p2 = y
      · rw [show ((p1, p2).1 : Nat) = p1 from rfl, show ((p1, p2).2 : Nat) = p2 from rfl,
          hpxy.1, hpxy.2, hgxy]
        have hwv' : ¬ (w = v) := by simpa using hwv
        simpa using fun hcontra => hwv' hcontra.symm
      · have hpne : get_index p1 p2 ≠ get_index x y := by
          intro hcontra
          exact hpxy ((get_index_inj hp1 hp2 hx hy).mp hcontra)
        rw [show ((p1, p2).1 : Nat) = p1 from rfl, show ((p1, p2).2 : Nat) = p2 from rfl,
          Grid.get_set_other g v x y p1 p2 hpne]
        exact hall (p1, p2) hp
  · rw [get_candidates_of_assigned _ _ _ (by rw [hgab]; exact hab),
      get_candidates_of_assigned _ _ _ hab]
    rw [show ValueSet.empty = (⟨0⟩ : ValueSet) from rfl, ValueSet.remove_zero_bits]

theorem get_candidates_set_nonpeer (g : Grid) (v x y a b : Nat)
    (hx : x < 9) (hy : y < 9) (ha : a < 9) (hb : b < 9)
    (hnp : ¬ sameUnit a b x y) :
    get_candidates (g.set v x y) a b = get_candidates g a b := by
  have hidx_ne : get_index a b ≠ get_index x y := by
    intro hcontra
    obtain ⟨h1, h2⟩ := (get_index_inj ha hb hx hy).mp hcontra
    subst h1
    subst h2
    exact hnp (sameUnit_refl a b)
  have hgab : (g.set v x y).get a b = g.get a b := Grid.get_set_other g v x y a b hidx_ne
  by_cases hab : g.get a b = EMPTY_CELL
  · apply ValueSet.ext_contains _ _ (get_candidates_bits_lt _ _ _) (get_candidates_bits_lt _ _ _)
    intro w hw1 hw9
    rw [contains_get_candidates _ _ _ w hw1 hw9, contains_get_candidates _ _ _ w hw1 hw9, hgab]
    congr 1
    apply list_all_congr
    rintro ⟨p1, p2⟩ hp
    obtain ⟨hp1, hp2, hpunit⟩ := (mem_peerCells ha hb).mp hp
    have hpne : get_index p1 p2 ≠ get_index x y := by
      intro hcontra
      obtain ⟨h1, h2⟩ := (get_index_inj hp1 hp2 hx hy).mp hcontra
      subst h1
      subst h2
      exact hnp (sameUnit_symm hpunit)
    rw [show ((p1, p2).1 : Nat) = p1 from rfl, show ((p1, p2).2 : Nat) = p2 from rfl,
      Grid.get_set_other g v x y p1 p2 hpne]
  · rw [get_candidates_of_assigned _ _ _ (by rw [hgab]; exact hab),
      get_candidates_of_assigned _ _ _ hab]

theorem assignState_Inv {s : SolveState} {v x y : Nat} (hInv : CandInv s) (hx : x < 9) (hy : y < 9)
    (hcand : (s.candidates (get_index x y)).contains v = true) :
    CandInv (s.assignState v x y) := by
  obtain ⟨hempty, hv1, hv9, _⟩ := contains_cand_facts hInv hx hy hcand
  intro i hi
  have ha : i % 9 < 9 := Nat.mod_lt _ (by omega)
  have hb : i / 9 < 9 := by omega
  have hiab : get_index (i % 9) (i / 9) = i := by unfold get_index; omega
  rw [assignState_candidates, assignState_grid]
  by_cases hidx : i = get_index x y
  · have hax : i % 9 = x ∧ i / 9 = y := (get_index_inj ha hb hx hy).mp (by rw [hiab, hidx])
    rw [if_pos ⟨(x, y), self_mem_peerCells hx hy, by rw [hidx]⟩, if_pos hidx,
      show (s.candidates i).clear = (⟨0⟩ : ValueSet) from rfl, ValueSet.remove_zero_bits,
      hax.1, hax.2, get_candidates_of_assigned]
    · rfl
    · rw [Grid.get_set_self]
      have hmod : v % 16 = v := Nat.mod_eq_of_lt (by omega)
      rw [hmod, EMPTY_CELL_eq_zero]
      omega
  · rw [if_neg hidx]
    by_cases hpeer : ∃ p ∈ peerCells x y, get_index p.1 p.2 = i
    · rw [if_pos hpeer]
      obtain ⟨⟨p1, p2⟩, hp, hpidx⟩ := hpeer
      obtain ⟨hp1, hp2, hpunit⟩ := (mem_peerCells hx hy).mp hp
      have hpab : p1 = i % 9 ∧ p2 = i / 9 :=
        (get_index_inj hp1 hp2 ha hb).mp (by rw [hpidx, hiab])
      have hunit : sameUnit (i % 9) (i / 9) x y := by
        rw [← hpab.1, ← hpab.2]
        exact hpunit
      have hne : ¬ (i % 9 = x ∧ i / 9 = y) := by
        intro hh
        exact hidx (by rw [← hiab, hh.1, hh.2])
      rw [hInv i hi,
        get_candidates_set_peer s.grid v x y (i % 9) (i / 9) hx hy ha hb hne hunit hempty hv1 hv9]
    · rw [if_neg hpeer]
      have hnp : ¬ sameUnit (i % 9) (i / 9) x y := by
        intro hu
        exact hpeer ⟨(i % 9, i / 9), (mem_peerCells hx hy).mpr ⟨ha, hb, hu⟩, hiab⟩
      rw [hInv i hi,
        get_candidates_set_nonpeer s.grid v x y (i % 9) (i / 9) hx hy ha hb hnp]

/-! ### Soundness of the search -/

theorem cfc_cands_eq {s : SolveState} {cands : ValueSet} {x y : Nat}
    (h : s.candidate_fewest_choices = some (cands, x, y)) :
    cands = s.candidates (get_index x y) := by
  obtain ⟨b, hb81, hc, hx, hy, _, _, _⟩ := cfc_some_spec s cands x y h
  subst hx
  subst hy
  have hidx : get_index (b % 9) (b / 9) = b := by
    unfold get_index
    omega
  rw [hidx]
  exact hc

theorem set_PreservesAssigned (g : Grid) (v x y : Nat) (hx : x < 9) (hy : y < 9)
    (hempty : g.get x y = EMPTY_CELL) : PreservesAssigned g (g.set v x y) := by
  intro a ha b hb hne
  have hidx : get_index a b ≠ get_index x y := by
    intro hcontra
    obtain ⟨h1, h2⟩ := (get_index_inj ha hb hx hy).mp hcontra
    subst h1
    subst h2
    exact hne hempty
  exact Grid.get_set_other g v x y a b hidx

theorem consistent_set {g : Grid} {v x y : Nat} (hcons : ConsistentGrid g)
    (hx : x < 9) (hy : y < 9) (hempty : g.get x y = EMPTY_CELL)
    (hv1 : 1 ≤ v) (hv9 : v ≤ 9)
    (hpeers : ∀ p ∈ peerCells x y, g.get p.1 p.2 ≠ v) :
    ConsistentGrid (g.set v x y) := by
  intro x1 hx1 y1 hy1 x2 hx2 y2 hy2 hunit hdist hne1
  have hvmod : v % 16 = v := Nat.mod_eq_of_lt (by omega)
  by_cases h1 : x1 = x ∧ y1 = y
  · by_cases h2 : x2 = x ∧ y2 = y
    · exfalso
      obtain ⟨ha, hb⟩ := h1
      obtain ⟨hc, hd⟩ := h2
      rcases hdist with h | h
      · exact h (by omega)
      · exact h (by omega)
    · have hidx2 : get_index x2 y2 ≠ get_index x y := by
        intro hc
        exact h2 ((get_index_inj hx2 hy2 hx hy).mp hc)
      rw [h1.1, h1.2, Grid.get_set_self, hvmod, Grid.get_set_other g v x y x2 y2 hidx2]
      have hmem : (x2, y2) ∈ peerCells x y := by
        refine (mem_peerCells hx hy).mpr ⟨hx2, hy2, ?_⟩
        have hu : sameUnit x y x2 y2 := by
          rw [← h1.1, ← h1.2]
          exact hunit
        exact sameUnit_symm hu
      exact fun hc => hpeers (x2, y2) hmem hc.symm
  · have hidx1 : get_index x1 y1 ≠ get_index x y := by
      intro hc
      exact h1 ((get_index_inj hx1 hy1 hx hy).mp hc)
    rw [Grid.get_set_other g v x y x1 y1 hidx1] at hne1 ⊢
    by_cases h2 : x2 = x ∧ y2 = y
    · rw [h2.1, h2.2, Grid.get_set_self, hvmod]
      have hmem : (x1, y1) ∈ peerCells x y := by
        refine (mem_peerCells hx hy).mpr ⟨hx1, hy1, ?_⟩
        rw [← h2.1, ← h2.2]
        exact hunit
      exact hpeers (x1, y1) hmem
    · have hidx2 : get_index x2 y2 ≠ get_index x y := by
        intro hc
        exact h2 ((get_index_inj hx2 hy2 hx hy).mp hc)
      rw [Grid.get_set_other g v x y x2 y2 hidx2]
      exact hcons x1 hx1 y1 hy1 x2 hx2 y2 hy2 hunit hdist hne1

theorem goStep_sound_aux (n : Nat)
    (ih : ∀ s t : SolveState, s.totalCands < n → CandInv s → solveFuel n s = some t →
      t.is_solved = true ∧ CandInv t ∧ PreservesAssigned s.grid t.grid ∧
        (ConsistentGrid s.grid → ConsistentGrid t.grid))
    (s : SolveState) (x y : Nat) (hx : x < 9) (hy : y < 9) (hs : s.totalCands < n + 1)
    (hInv : CandInv s) :
    ∀ (L : List Nat) (t : SolveState),
      (∀ v ∈ L, (s.candidates (get_index x y)).contains v = true) →
      goStep (solveFuel n) s x y L = some t →
      t.is_solved = true ∧ CandInv t ∧ PreservesAssigned s.grid t.grid ∧
        (ConsistentGrid s.grid → ConsistentGrid t.grid) := by
  intro L
  induction L with
  | nil =>
    intro t _ h
    rw [show goStep (solveFuel n) s x y [] = none from rfl] at h
    cases h
  | cons v rest ihL =>
    intro t hl hsolve
    rcases hassign : s.assign v x y with _ | branch
    · rw [show goStep (solveFuel n) s x y (v :: rest) = goStep (solveFuel n) s x y rest by
        simp [goStep, hassign]] at hsolve
      exact ihL t (fun w hw => hl w (List.mem_cons_of_mem _ hw)) hsolve
    · have hBr := (assign_eq_some hassign).1
      have hcv : (s.candidates (get_index x y)).contains v = true :=
        hl v (List.mem_cons_self _ _)
      obtain ⟨hempty, hv1, hv9, hpeers⟩ := contains_cand_facts hInv hx hy hcv
      rcases hres : solveFuel n branch with _ | r
      · rw [show goStep (solveFuel n) s x y (v :: rest) = goStep (solveFuel n) s x y rest by
          simp [goStep, hassign, hres]] at hsolve
        exact ihL t (fun w hw => hl w (List.mem_cons_of_mem _ hw)) hsolve
      · rw [show goStep (solveFuel n) s x y (v :: rest) = some r by
          simp [goStep, hassign, hres]] at hsolve
        injection hsolve with hsolve
        subst hsolve
        have hInvB : CandInv branch := by
          rw [hBr]
          exact assignState_Inv hInv hx hy hcv
        have hposv : 0 < (s.candidates (get_index x y)).count :=
          ValueSet.pos_count_of_contains _ v hv9 hcv
        have hltB : branch.totalCands < s.totalCands := by
          rw [hBr]
          exact assignState_totalCands_lt s v x y hx hy hposv
        have hrec := ih branch r (by omega) hInvB hres
        have hgrid : branch.grid = s.grid.set v x y := by
          rw [hBr]
          rfl
        have hframe1 : PreservesAssigned s.grid branch.grid := by
          rw [hgrid]
          exact set_PreservesAssigned s.grid v x y hx hy hempty
        have hcons1 : ConsistentGrid s.grid → ConsistentGrid branch.grid := by
          rw [hgrid]
          intro hc
          exact consistent_set hc hx hy hempty hv1 hv9 hpeers
        exact ⟨hrec.1, hrec.2.1, PreservesAssigned.trans hframe1 hrec.2.2.1,
          fun hc => hrec.2.2.2 (hcons1 hc)⟩

theorem solveFuel_sound (n : Nat) : ∀ s t : SolveState, s.totalCands < n → CandInv s →
    solveFuel n s = some t →
    t.is_solved = true ∧ CandInv t ∧ PreservesAssigned s.grid t.grid ∧
      (ConsistentGrid s.grid → ConsistentGrid t.grid) := by
  induction n with
  | zero =>
    intro s t h _ _
    exact absurd h (Nat.not_lt_zero _)
  | succ n ih =>
    intro s t hs hInv hsolve
    by_cases hsol : s.is_solved = true
    · rw [show solveFuel (n + 1) s = some s by simp [solveFuel, hsol]] at hsolve
      injection hsolve with hsolve
      subst hsolve
      exact ⟨hsol, hInv, PreservesAssigned.refl _, fun h => h⟩
    · have hsol' : s.is_solved = false := by
        revert hsol
        cases s.is_solved <;> simp
      rcases hcfc : s.candidate_fewest_choices with _ | ⟨cands, x, y⟩
      · rw [show solveFuel (n + 1) s = none by simp [solveFuel, hsol', hcfc]] at hsolve
        cases hsolve
      · rw [show solveFuel (n + 1) s = goStep (solveFuel n) s x y cands.toList by
          simp [solveFuel, hsol', hcfc]] at hsolve
        have hB := cfc_bound hcfc
        have hcands := cfc_cands_eq hcfc
        have hl : ∀ v ∈ cands.toList, (s.candidates (get_index x y)).contains v = true := by
          intro v hv
          have := (ValueSet.contains_toList cands v).mp hv
          rw [← hcands]
          exact this.2
        exact goStep_sound_aux n ih s x y hB.1 hB.2.1 hs hInv cands.toList t hl hsolve

/-! ### Completeness of the search -/

/-- Every cell assigned in `g` holds the same value in `sol`. -/
def ExtendsTo (g sol : Grid) : Prop :=
  ∀ x, x < 9 → ∀ y, y < 9 → g.get x y ≠ EMPTY_CELL → sol.get x y = g.get x y

/-- A full, consistent, valid grid agreeing with `g` on its assigned cells. -/
def IsSolutionOf (sol g : Grid) : Prop :=
  FullyAssigned sol ∧ ConsistentGrid sol ∧ ValidGrid sol ∧ ExtendsTo g sol

theorem sol_candidate {s : SolveState} {sol : Grid} {a b : Nat} (hInv : CandInv s)
    (hsol : IsSolutionOf sol s.grid) (ha : a < 9) (hb : b < 9)
    (hempty : s.grid.get a b = EMPTY_CELL) :
    (s.candidates (get_index a b)).contains (sol.get a b) = true := by
  obtain ⟨hfull, hcons, hvalid, hext⟩ := hsol
  have hw1 : 1 ≤ sol.get a b := by
    have hne := hfull a ha b hb
    rw [EMPTY_CELL_eq_zero] at hne
    omega
  have hw9 : sol.get a b ≤ 9 := hvalid a ha b hb
  rw [Inv_candidates_at s hInv a b ha hb, contains_get_candidates _ _ _ _ hw1 hw9,
    Bool.and_eq_true]
  constructor
  · simpa using hempty
  · rw [List.all_eq_true]
    rintro ⟨p1, p2⟩ hp
    obtain ⟨hp1, hp2, hpunit⟩ := (mem_peerCells ha hb).mp hp
    by_cases hpg : s.grid.get p1 p2 = EMPTY_CELL
    · have hne : ¬ (s.grid.get p1 p2 = sol.get a b) := by
        rw [hpg, EMPTY_CELL_eq_zero]
        omega
      simpa using hne
    · have hpab : ¬ (p1 = a ∧ p2 = b) := by
        intro hh
        rw [hh.1, hh.2] at hpg
        exact hpg hempty
      have hdist : p1 ≠ a ∨ p2 ≠ b := by
        by_cases h1 : p1 = a
        · right
          intro h2
          exact hpab ⟨h1, h2⟩
        · left
          exact h1
      have hsolp : sol.get p1 p2 = s.grid.get p1 p2 := hext p1 hp1 p2 hp2 hpg
      have hne : sol.get p1 p2 ≠ sol.get a b := by
        apply hcons p1 hp1 p2 hp2 a ha b hb hpunit hdist
        rw [hsolp]
        exact hpg
      rw [← hsolp]
      simpa using hne

theorem not_deadlocked_of_solution {s : SolveState} {sol : Grid} (hInv : CandInv s)
    (hsol : IsSolutionOf sol s.grid) : s.deadlocked = false := by
  rw [deadlocked_false_iff]
  intro a b ha hb hempty
  have hc := sol_candidate hInv hsol ha hb hempty
  have hpos := ValueSet.pos_count_of_contains _ _ (hsol.2.2.1 a ha b hb) hc
  omega

theorem goStep_isSome_of_mem (f : SolveState → Option SolveState) (s : SolveState)
    (x y : Nat) (L : List Nat) (w : Nat) (bw : SolveState)
    (hmem : w ∈ L) (hassign : s.assign w x y = some bw) (hsome : (f bw).isSome = true) :
    (goStep f s x y L).isSome = true := by
  induction L with
  | nil => cases hmem
  | cons v rest ih =>
    rcases List.mem_cons.mp hmem with rfl | hmem2
    · rcases hres : f bw with _ | r
      · rw [hres] at hsome
        cases hsome
      · rw [show goStep f s x y (w :: rest) = some r by simp [goStep, hassign, hres]]
        rfl
    · rcases hassign2 : s.assign v x y with _ | branch
      · rw [show goStep f s x y (v :: rest) = goStep f s x y rest by simp [goStep, hassign2]]
        exact ih hmem2
      · rcases hres : f branch with _ | r
        · rw [show goStep f s x y (v :: rest) = goStep f s x y rest by
            simp [goStep, hassign2, hres]]
          exact ih hmem2
        · rw [show goStep f s x y (v :: rest) = some r by simp [goStep, hassign2, hres]]
          rfl

theorem solveFuel_complete (n : Nat) : ∀ (s : SolveState) (sol : Grid), s.totalCands < n →
    CandInv s → IsSolutionOf sol s.grid → (solveFuel n s).isSome = true := by
  induction n with
  | zero =>
    intro s sol h _ _
    exact absurd h (Nat.not_lt_zero _)
  | succ n ih =>
    intro s sol hs hInv hsol
    by_cases hsolved : s.is_solved = true
    · rw [show solveFuel (n + 1) s = some s by simp [solveFuel, hsolved]]
      rfl
    · have hsol' : s.is_solved = false := by
        revert hsolved
        cases s.is_solved <;> simp
      have hnotall : ¬ ∀ a, a < 9 → ∀ b, b < 9 → s.grid.get a b ≠ EMPTY_CELL := by
        intro hall
        rw [(is_solved_iff s).mpr (fun a b ha hb => hall a ha b hb)] at hsol'
        cases hsol'
      push_neg at hnotall
      obtain ⟨a, ha, b, hb, hempty⟩ := hnotall
      have hpos0 : 0 < (s.candidates (get_index a b)).count :=
        ValueSet.pos_count_of_contains _ _ (hsol.2.2.1 a ha b hb)
          (sol_candidate hInv hsol ha hb hempty)
      rcases hcfc : s.candidate_fewest_choices with _ | ⟨cands, x, y⟩
      · have := (cfc_none_iff s).mp hcfc (get_index a b) (get_index_lt ha hb)
        omega
      · have hB := cfc_bound hcfc
        have hcands := cfc_cands_eq hcfc
        have hxyempty : s.grid.get x y = EMPTY_CELL := by
          by_contra hcon
          have hemp : s.candidates (get_index x y) = ValueSet.empty := by
            rw [Inv_candidates_at s hInv x y hB.1 hB.2.1, get_candidates_of_assigned _ _ _ hcon]
          have := hB.2.2
          rw [hemp, ValueSet.count_empty] at this
          omega
        have hw := sol_candidate hInv hsol hB.1 hB.2.1 hxyempty
        have hw9 : sol.get x y ≤ 9 := hsol.2.2.1 x hB.1 y hB.2.1
        have hmem : sol.get x y ∈ cands.toList := by
          rw [ValueSet.contains_toList, hcands]
          exact ⟨by omega, hw⟩
        have hnd : s.deadlocked = false := not_deadlocked_of_solution hInv hsol
        have hassign := assign_of_not_deadlocked s (sol.get x y) x y hnd
        have hInvB : CandInv (s.assignState (sol.get x y) x y) :=
          assignState_Inv hInv hB.1 hB.2.1 hw
        have hsolB : IsSolutionOf sol (s.assignState (sol.get x y) x y).grid := by
          obtain ⟨hfull, hcons, hvalid, hext⟩ := hsol
          refine ⟨hfull, hcons, hvalid, ?_⟩
          show ExtendsTo (s.grid.set (sol.get x y) x y) sol
          intro p1 hp1 p2 hp2 hne
          by_cases hpxy : p1 = x ∧ p2 = y
          · rw [hpxy.1, hpxy.2, Grid.get_set_self,
              Nat.mod_eq_of_lt (show sol.get x y < 16 by omega)]
          · have hpne : get_index p1 p2 ≠ get_index x y := by
              intro hcontra
              exact hpxy ((get_index_inj hp1 hp2 hB.1 hB.2.1).mp hcontra)
            rw [Grid.get_set_other _ _ _ _ _ _ hpne] at hne ⊢
            exact hext p1 hp1 p2 hp2 hne
        have hposxy : 0 < (s.candidates (get_index x y)).count := hB.2.2
        have hltB : (s.assignState (sol.get x y) x y).totalCands < s.totalCands :=
          assignState_totalCands_lt s _ x y hB.1 hB.2.1 hposxy
        have hrec := ih (s.assignState (sol.get x y) x y) sol (by omega) hInvB hsolB
        rw [show solveFuel (n + 1) s = goStep (solveFuel n) s x y cands.toList by
          simp [solveFuel, hsol', hcfc]]
        exact goStep_isSome_of_mem (solveFuel n) s x y cands.toList (sol.get x y)
          (s.assignState (sol.get x y) x y) hmem hassign hrec

/-! ### Parser and renderer -/

def is_digit (c : Char) : Bool := decide ('0' ≤ c) && decide (c ≤ '9')

/-- The character filter of `parse_grid`: digits and the placeholder. -/
def keepChar (c : Char) : Bool := is_digit c || c == '.'

/-- A kept character's numeric value: 0 for `.`, the digit value else. -/
def charToVal (c : Char) : Nat := if c = '.' then 0 else c.toNat - '0'.toNat

/-- `parse_grid`: keep digit and `.` characters, map them to values, and
require exactly 81 of them. -/
def parse_grid (text : List Char) : Option Grid :=
  let nums := (text.filter keepChar).map charToVal
  if nums.length = NUM_CELLS then some (Grid.ofList nums) else none

/-- One cell of the rendering: `.` for empty, the decimal digit else. -/
def cellChar (v : Nat) : Char := if v = EMPTY_CELL then '.' else Char.ofNat (48 + v)

/-- The horizontal separator line of the `Display` implementation. -/
def sepLine : List Char := "+------+------+-----+\n".toList

/-- One rendered row: `|` before columns 0, 3, 6, cells space-separated,
a closing `|` and the newline. -/
def rowChars (g : Grid) (y : Nat) : List Char :=
  ((List.range 9).flatMap (fun x =>
    (if x % 3 = 0 then ['|'] else []) ++ [cellChar (g.get x y)]
      ++ (if x < 8 then [' '] else []))) ++ ['|', '\n']

/-- The full rendering: a separator before rows 0, 3, 6 and one after
row 8. -/
def Grid.render (g : Grid) : List Char :=
  ((List.range 9).flatMap (fun y =>
    (if y % 3 = 0 then sepLine else []) ++ rowChars g y)) ++ sepLine

/-! ### Round-trip: parsing a rendering -/

theorem filter_flatMap_list {α β : Type} (l : List α) (f : α → List β) (p : β → Bool) :
    (l.flatMap f).filter p = l.flatMap (fun a => (f a).filter p) := by
  induction l with
  | nil => rfl
  | cons a l ih => simp [List.filter_append, ih]

theorem map_flatMap_list {α β γ : Type} (l : List α) (f : α → List β) (h : β → γ) :
    (l.flatMap f).map h = l.flatMap (fun a => (f a).map h) := by
  induction l with
  | nil => rfl
  | cons a l ih => simp [ih]

theorem flatMap_congr_list {α β : Type} (l : List α) (f h : α → List β)
    (hfh : ∀ a ∈ l, f a = h a) : l.flatMap f = l.flatMap h := by
  induction l with
  | nil => rfl
  | cons a l ih =>
    simp only [List.flatMap_cons]
    rw [hfh a (List.mem_cons_self _ _), ih (fun b hb => hfh b (List.mem_cons_of_mem _ hb))]

theorem flatMap_singleton_eq_map {α β : Type} (l : List α) (f : α → β) :
    l.flatMap (fun a => [f a]) = l.map f := by
  induction l with
  | nil => rfl
  | cons a l ih => simp [ih]

theorem keepChar_cellChar (v : Nat) (hv : v ≤ 9) : keepChar (cellChar v) = true := by
  interval_cases v <;> decide

theorem charToVal_cellChar (v : Nat) (hv : v ≤ 9) : charToVal (cellChar v) = v := by
  interval_cases v <;> decide

theorem filter_rowChars (g : Grid) (y : Nat) (hval : ∀ x, x < 9 → g.get x y ≤ 9) :
    (rowChars g y).filter keepChar = (List.range 9).map (fun x => cellChar (g.get x y)) := by
  rw [rowChars, List.filter_append, filter_flatMap_list,
    show (['|', '\n'].filter keepChar) = [] from rfl, List.append_nil]
  rw [flatMap_congr_list (List.range 9) _ (fun x => [cellChar (g.get x y)]) ?_,
    flatMap_singleton_eq_map]
  intro x hx
  rw [List.filter_append, List.filter_append]
  rw [show ((if x % 3 = 0 then ['|'] else []) : List Char).filter keepChar = [] by split <;> rfl]
  rw [show ((if x < 8 then [' '] else []) : List Char).filter keepChar = [] by split <;> rfl]
  rw [List.nil_append, List.append_nil]
  have hc : keepChar (cellChar (g.get x y)) = true :=
    keepChar_cellChar _ (hval x (List.mem_range.mp hx))
  simp [List.filter, hc]

theorem filter_render (g : Grid) (hval : ValidGrid g) :
    (g.render).filter keepChar
      = (List.range 9).flatMap (fun y => (List.range 9).map (fun x => cellChar (g.get x y))) := by
  rw [Grid.render, List.filter_append, filter_flatMap_list,
    show sepLine.filter keepChar = [] from rfl, List.append_nil]
  apply flatMap_congr_list
  intro y hy
  rw [List.filter_append]
  rw [show ((if y % 3 = 0 then sepLine else []) : List Char).filter keepChar = [] by
    split <;> rfl]
  rw [List.nil_append]
  exact filter_rowChars g y (fun x hx => hval x hx y (List.mem_range.mp hy))

theorem nums_of_render (g : Grid) (hval : ValidGrid g) :
    ((g.render).filter keepChar).map charToVal
      = (List.range 9).flatMap (fun y => (List.range 9).map (fun x => g.get x y)) := by
  rw [filter_render g hval, map_flatMap_list]
  apply flatMap_congr_list
  intro y hy
  rw [List.map_map]
  apply List.map_congr_left
  intro x hx
  exact charToVal_cellChar _ (hval x (List.mem_range.mp hx) y (List.mem_range.mp hy))

theorem Grid.get_lt_16 (g : Grid) (x y : Nat) : g.get x y < 16 :=
  Nat.mod_lt _ (by norm_num)

theorem mod16_get (g : Grid) (x y : Nat) : g.get x y % 16 = g.get x y :=
  Nat.mod_eq_of_lt (Grid.get_lt_16 g x y)

theorem ofList_rowmajor_get (g : Grid) (x y : Nat) (hx : x < 9) (hy : y < 9) :
    (Grid.ofList ((List.range 9).flatMap
        (fun yy => (List.range 9).map (fun xx => g.get xx yy)))).get x y = g.get x y := by
  interval_cases x <;> interval_cases y <;> exact mod16_get g _ _

theorem rowmajor_length (g : Grid) :
    ((List.range 9).flatMap (fun y => (List.range 9).map (fun x => g.get x y))).length = 81 := rfl

/-! ### The claim-side candidate set: digits 1..9 free of peer conflicts -/

/-- The set of digits 1..9 that are not assigned to any cell of the row,
the column or the box of (x, y) — the specification's description of an
empty cell's candidate set. -/
def digitsNotAssignedToPeers (g : Grid) (x y : Nat) : ValueSet :=
  (((List.range 9).map (fun d => d + 1)).filter
    (fun w => (peerCells x y).all (fun p => !(g.get p.1 p.2 == w)))).foldl
    ValueSet.add ValueSet.empty

theorem ValueSet.contains_add (s : ValueSet) (v w : Nat) (h1 : 1 ≤ w) (h9 : w ≤ 9) :
    (s.add v).contains w = (s.contains w || (w == v)) := by
  have hw : ¬ (w = EMPTY_CELL) := by rw [EMPTY_CELL_eq_zero]; omega
  by_cases hv : v = EMPTY_CELL
  · have hwv : (w == v) = false := by
      rw [hv, EMPTY_CELL_eq_zero]
      simp
      omega
    rw [ValueSet.add, if_pos hv, hwv]
    simp
  · simp only [ValueSet.add, ValueSet.contains, if_neg hv, if_neg hw]
    rw [Nat.testBit_or, Nat.shiftLeft_eq, Nat.one_mul, Nat.testBit_two_pow]
    have hv1 : 1 ≤ v := by rw [EMPTY_CELL_eq_zero] at hv; omega
    by_cases hvw : w = v
    · have e2 : (decide (v - 1 = w - 1)) = true := decide_eq_true (by omega)
      have e3 : (w == v) = true := by simp [hvw]
      rw [e2, e3]
    · have e2 : (decide (v - 1 = w - 1)) = false := by
        simp only [decide_eq_false_iff_not]
        omega
      have e3 : (w == v) = false := by simp [hvw]
      rw [e2, e3]

theorem ValueSet.bits_add_lt (s : ValueSet) (v : Nat) (hs : s.bits < 512) (hv : v ≤ 9) :
    (s.add v).bits < 512 := by
  by_cases hv0 : v = EMPTY_CELL
  · rw [ValueSet.add, if_pos hv0]
    exact hs
  · rw [ValueSet.add, if_neg hv0]
    have h1 : 1 ≤ v := by rw [EMPTY_CELL_eq_zero] at hv0; omega
    have : (512 : Nat) = 2 ^ 9 := by norm_num
    rw [this] at hs ⊢
    apply Nat.or_lt_two_pow hs
    rw [Nat.shiftLeft_eq, Nat.one_mul]
    calc (2 : Nat) ^ (v - 1) ≤ 2 ^ 8 := Nat.pow_le_pow_right (by omega) (by omega)
    _ < 2 ^ 9 := by norm_num

theorem foldl_add_bits_lt (L : List Nat) (s : ValueSet) (hs : s.bits < 512)
    (hL : ∀ v ∈ L, v ≤ 9) : (L.foldl ValueSet.add s).bits < 512 := by
  induction L generalizing s with
  | nil => exact hs
  | cons v rest ih =>
    rw [List.foldl_cons]
    exact ih _ (ValueSet.bits_add_lt s v hs (hL v (List.mem_cons_self _ _)))
      (fun w hw => hL w (List.mem_cons_of_mem _ hw))

theorem foldl_add_contains (L : List Nat) (s : ValueSet) (w : Nat) (h1 : 1 ≤ w) (h9 : w ≤ 9) :
    (L.foldl ValueSet.add s).contains w = (s.contains w || L.any (fun v => w == v)) := by
  induction L generalizing s with
  | nil => simp
  | cons v rest ih =>
    rw [List.foldl_cons, ih, ValueSet.contains_add s v w h1 h9, List.any_cons,
      Bool.or_assoc]

theorem digitsNotAssignedToPeers_eq (g : Grid) (x y : Nat)
    (hempty : g.get x y = EMPTY_CELL) :
    get_candidates g x y = digitsNotAssignedToPeers g x y := by
  apply ValueSet.ext_contains _ _ (get_candidates_bits_lt g x y)
  · rw [digitsNotAssignedToPeers]
    apply foldl_add_bits_lt
    · rw [ValueSet.empty]
      norm_num
    · intro v hv
      obtain ⟨hv1, _⟩ := List.mem_filter.mp hv
      obtain ⟨d, hd, hdv⟩ := List.mem_map.mp hv1
      rw [← hdv]
      have := List.mem_range.mp hd
      omega
  · intro w hw1 hw9
    rw [contains_get_candidates g x y w hw1 hw9, digitsNotAssignedToPeers,
      foldl_add_contains _ _ w hw1 hw9,
      show ValueSet.empty.contains w = false by
        rw [ValueSet.empty, ValueSet.contains]; split <;> simp,
      Bool.false_or,
      show (g.get x y == EMPTY_CELL) = true by simpa using hempty, Bool.true_and]
    apply bool_eq_of_iff
    rw [List.any_eq_true]
    constructor
    · intro hall
      refine ⟨w, List.mem_filter.mpr ⟨?_, hall⟩, by simp⟩
      have : w = (w - 1) + 1 := by omega
      exact List.mem_map.mpr ⟨w - 1, List.mem_range.mpr (by omega), by omega⟩
    · rintro ⟨v, hv, hwv⟩
      have hveq : w = v := by simpa using hwv
      obtain ⟨_, hcond⟩ := List.mem_filter.mp hv
      rw [hveq]
      exact hcond

/-- The invariant exactly as the specification words it: an assigned
cell's cached candidate set is empty; an empty cell's cached candidate
set is exactly the digits 1..9 not assigned to any peer. -/
def ClaimCandInv (s : SolveState) : Prop :=
  ∀ a, a < 9 → ∀ b, b < 9 →
    (s.grid.get a b ≠ EMPTY_CELL → s.candidates (get_index a b) = ValueSet.empty) ∧
    (s.grid.get a b = EMPTY_CELL →
      s.candidates (get_index a b) = digitsNotAssignedToPeers s.grid a b)

theorem ClaimCandInv_iff (s : SolveState) : ClaimCandInv s ↔ CandInv s := by
  constructor
  · intro h i hi
    have ha : i % 9 < 9 := Nat.mod_lt _ (by omega)
    have hb : i / 9 < 9 := by omega
    have hiab : get_index (i % 9) (i / 9) = i := by
      unfold get_index
      omega
    have hh := h (i % 9) ha (i / 9) hb
    rw [hiab] at hh
    by_cases hcell : s.grid.get (i % 9) (i / 9) = EMPTY_CELL
    · exact (hh.2 hcell).trans (digitsNotAssignedToPeers_eq s.grid _ _ hcell).symm
    · exact (hh.1 hcell).trans (get_candidates_of_assigned s.grid _ _ hcell).symm
  · intro h a ha b hb
    constructor
    · intro hcell
      rw [Inv_candidates_at s h a b ha hb, get_candidates_of_assigned s.grid _ _ hcell]
    · intro hcell
      rw [Inv_candidates_at s h a b ha hb, digitsNotAssignedToPeers_eq s.grid _ _ hcell]

/-! ### Concrete boards used by witnesses and counterexamples -/

/-- A board on which assigning 1 at (0,0) removes the last candidate of
the empty cell (1,0): row 0 holds 3..9, and a 2 sits in each of columns
0 and 1, so both (0,0) and (1,0) have exactly the candidate set 1. -/
def deadlockList : List Nat :=
  [0, 0, 3, 4, 5, 6, 7, 8, 9] ++ List.replicate 18 0 ++
  [2, 0, 0, 0, 0, 0, 0, 0, 0] ++ [0, 2, 0, 0, 0, 0, 0, 0, 0] ++ List.replicate 36 0

/-- The fully assigned board whose every cell is 5. -/
def all5List : List Nat := List.replicate 81 5

/-- A board with two 5s in row 0 whose single empty cell (8,0) has no
candidate left, so the search exhausts immediately. -/
def badRowList : List Nat :=
  [5, 5, 1, 2, 3, 4, 6, 7, 0] ++
  [1, 1, 1, 1, 1, 1, 1, 1, 8] ++
  [1, 1, 1, 1, 1, 1, 1, 1, 9] ++ List.replicate 54 1

/-- A board whose empty cell (0,0) sees all nine digits among its peers:
1..8 in row 0 and a 9 below in column 0. -/
def c4List : List Nat := [0, 1, 2, 3, 4, 5, 6, 7, 8] ++ [9] ++ List.replicate 71 0

def emptyList : List Nat := List.replicate 81 0

instance (g : Grid) : Decidable (ValidGrid g) :=
  inferInstanceAs (Decidable (∀ x, x < 9 → ∀ y, y < 9 → g.get x y ≤ 9))

instance (g : Grid) : Decidable (FullyAssigned g) :=
  inferInstanceAs (Decidable (∀ x, x < 9 → ∀ y, y < 9 → g.get x y ≠ EMPTY_CELL))

instance (g : Grid) : Decidable (ConsistentGrid g) :=
  inferInstanceAs (Decidable
    (∀ x1, x1 < 9 → ∀ y1, y1 < 9 → ∀ x2, x2 < 9 → ∀ y2, y2 < 9 →
      sameUnit x1 y1 x2 y2 → (x1 ≠ x2 ∨ y1 ≠ y2) → g.get x1 y1 ≠ EMPTY_CELL →
      g.get x1 y1 ≠ g.get x2 y2))

instance (s : SolveState) : Decidable (ClaimCandInv s) :=
  inferInstanceAs (Decidable
    (∀ a, a < 9 → ∀ b, b < 9 →
      (s.grid.get a b ≠ EMPTY_CELL → s.candidates (get_index a b) = ValueSet.empty) ∧
      (s.grid.get a b = EMPTY_CELL →
        s.candidates (get_index a b) = digitsNotAssignedToPeers s.grid a b)))

/-! ### Claim C1 -/

/-- C1: the claim states `assign` never returns a state that is
deadlocked after propagation.  The code tests `self.deadlocked()` — the
receiver — instead of the freshly propagated copy, so from the
non-deadlocked state below, `assign(1, 0, 0)` returns a state whose
`deadlocked()` is true: assigning 1 at (0,0) empties the candidate set
of the still-empty cell (1,0). -/
theorem c1_assign_returns_deadlocked_state :
    (Grid.ofList deadlockList).get 0 0 = EMPTY_CELL ∧
    (SolveState.new (Grid.ofList deadlockList)).deadlocked = false ∧
    ((SolveState.new (Grid.ofList deadlockList)).candidates (get_index 0 0)).contains 1 = true ∧
    ((SolveState.new (Grid.ofList deadlockList)).assign 1 0 0).map SolveState.deadlocked
      = some true := by
  decide

/-! ### Claim C2 -/

/-- C2 counterexample: on the fully assigned all-5s board the solver
returns the input unchanged, and that grid is not consistent — so the
claim that every returned grid is consistent is false as stated. -/
theorem c2_full_inconsistent_input_counterexample :
    (solve_recursive (Grid.ofList all5List)).map (fun g2 => decide (ConsistentGrid g2))
      = some false := by
  rw [solve_recursive_eq_fuel]
  decide

/-- C2 (amended): whenever `solve_recursive` or `solve_recursive_par`
returns a grid, that grid is fully assigned; and when the input grid is
consistent, the returned grid is consistent as well. -/
theorem c2_solver_output_full_and_consistent :
    ∀ (g g2 : Grid),
      (solve_recursive g = some g2 ∨ solve_recursive_par g = some g2) →
      FullyAssigned g2 ∧ (ConsistentGrid g → ConsistentGrid g2) := by
  intro g g2 hcase
  have hseq : solve_recursive g = some g2 := by
    rcases hcase with h | h
    · exact h
    · rw [← solve_recursive_par_eq_solve_recursive]
      exact h
  rw [solve_recursive, Option.map_eq_some'] at hseq
  obtain ⟨t, ht, hgrid⟩ := hseq
  rw [solve_internal_eq_fuel] at ht
  have hs := solveFuel_sound _ _ _ (Nat.lt_succ_self _) (CandInv_new g) ht
  subst hgrid
  constructor
  · intro x hx y hy
    exact (is_solved_iff t).mp hs.1 x y hx hy
  · intro hcons
    exact hs.2.2.2 hcons

/-- C2 witness: the one-empty-cell puzzle `almostList` is consistent; the
theorem yields that the solver's output is fully assigned and consistent. -/
theorem c2_witness :
    FullyAssigned ((solve_recursive (Grid.ofList almostList)).getD (Grid.ofList almostList)) ∧
    ConsistentGrid ((solve_recursive (Grid.ofList almostList)).getD (Grid.ofList almostList)) := by
  have hsome : (solve_recursive (Grid.ofList almostList)).isSome = true := by
    rw [solve_recursive_eq_fuel]
    decide
  have heq : solve_recursive (Grid.ofList almostList)
      = some ((solve_recursive (Grid.ofList almostList)).getD (Grid.ofList almostList)) := by
    rcases h : solve_recursive (Grid.ofList almostList) with _ | g2
    · rw [h] at hsome
      cases hsome
    · rfl
  have hres := c2_solver_output_full_and_consistent (Grid.ofList almostList) _ (Or.inl heq)
  exact ⟨hres.1, hres.2 (by decide)⟩

/-! ### Claim C9 -/

/-- C9 counterexample: the all-5s board has two identical non-zero values
in row 0, yet both solvers return it as a "solution" rather than no
solution — the universally quantified claim is false. -/
theorem c9_forall_counterexample :
    (Grid.ofList all5List).get 0 0 = 5 ∧ (Grid.ofList all5List).get 1 0 = 5 ∧
    (solve_recursive (Grid.ofList all5List)).isSome = true ∧
    (solve_recursive_par (Grid.ofList all5List)).isSome = true := by
  refine ⟨by decide, by decide, ?_, ?_⟩
  · rw [solve_recursive_eq_fuel]
    decide
  · rw [solve_recursive_par_eq_solve_recursive, solve_recursive_eq_fuel]
    decide

/-- C9 (amended): boards with two identical non-zero values in the same
row can make both solvers return no solution — witnessed by this board,
two 5s in row 0 and an exhausted search — but not every such board does:
a fully assigned board with the same duplicate is returned unchanged
(see the counterexample). -/
theorem c9_unsolvable_duplicate_row :
    (Grid.ofList badRowList).get 0 0 = 5 ∧ (Grid.ofList badRowList).get 1 0 = 5 ∧
    solve_recursive (Grid.ofList badRowList) = none ∧
    solve_recursive_par (Grid.ofList badRowList) = none := by
  refine ⟨by decide, by decide, ?_, ?_⟩
  · rw [solve_recursive_eq_fuel]
    rfl
  · rw [solve_recursive_par_eq_solve_recursive, solve_recursive_eq_fuel]
    rfl

/-! ### Claim C3 -/

/-- C3: the candidate invariant holds after `SolveState::new` and is
preserved by every `assign` call that returns a state (the value being
one of the cell's cached candidates, coordinates in range): every
non-empty cell's cached candidate set is empty, and every empty cell's
cached candidate set equals exactly the digits 1..9 not assigned to any
peer in the current grid. -/
theorem c3_candidate_invariant_preserved :
    (∀ g : Grid, ClaimCandInv (SolveState.new g)) ∧
    (∀ (s t : SolveState) (v x y : Nat), ClaimCandInv s → x < 9 → y < 9 →
      (s.candidates (get_index x y)).contains v = true →
      s.assign v x y = some t → ClaimCandInv t) := by
  constructor
  · intro g
    exact (ClaimCandInv_iff _).mpr (CandInv_new g)
  · intro s t v x y hci hx hy hcont hassign
    have hInv := (ClaimCandInv_iff s).mp hci
    have ht := (assign_eq_some hassign).1
    rw [ht]
    exact (ClaimCandInv_iff _).mpr (assignState_Inv hInv hx hy hcont)

/-- C3 witness: on the empty board, assigning 5 at (0,0) preserves the
invariant. -/
theorem c3_witness :
    ((SolveState.new (Grid.ofList emptyList)).candidates (get_index 0 0)).contains 5 = true ∧
    ClaimCandInv ((SolveState.new (Grid.ofList emptyList)).assignState 5 0 0) := by
  have hcont : ((SolveState.new (Grid.ofList emptyList)).candidates
      (get_index 0 0)).contains 5 = true := by decide
  have hnd : (SolveState.new (Grid.ofList emptyList)).deadlocked = false := by decide
  refine ⟨hcont, ?_⟩
  exact c3_candidate_invariant_preserved.2 (SolveState.new (Grid.ofList emptyList))
    ((SolveState.new (Grid.ofList emptyList)).assignState 5 0 0) 5 0 0
    (c3_candidate_invariant_preserved.1 (Grid.ofList emptyList))
    (by norm_num) (by norm_num) hcont
    (assign_of_not_deadlocked _ 5 0 0 hnd)

/-! ### Claim C4 -/

/-- C4 counterexample: on `c4List` the cell (0,0) is empty and yet its
candidate set is empty (all nine digits occur among its peers), so
"returns the empty set iff the cell is assigned" is false as stated. -/
theorem c4_empty_iff_counterexample :
    ¬ ((get_candidates (Grid.ofList c4List) 0 0 = ValueSet.empty)
        ↔ (Grid.ofList c4List).get 0 0 ≠ EMPTY_CELL) := by
  decide

/-- C4 (amended): for a valid board and in-range coordinates,
`get_candidates` returns the empty set if the cell is assigned (only the
forward direction holds — an empty cell may also have an empty candidate
set), and for an empty cell the returned set never contains a value
assigned to any cell of the same row, column or box. -/
theorem c4_get_candidates_no_peer_conflicts :
    ∀ g : Grid, ValidGrid g → ∀ x, x < 9 → ∀ y, y < 9 →
      (g.get x y ≠ EMPTY_CELL → get_candidates g x y = ValueSet.empty) ∧
      (g.get x y = EMPTY_CELL → ∀ p ∈ peerCells x y, g.get p.1 p.2 ≠ EMPTY_CELL →
        (get_candidates g x y).contains (g.get p.1 p.2) = false) := by
  intro g hval x hx y hy
  refine ⟨get_candidates_of_assigned g x y, ?_⟩
  intro hempty p hp hpne
  obtain ⟨p1, p2⟩ := p
  obtain ⟨hp1, hp2, _⟩ := (mem_peerCells hx hy).mp hp
  have hw9 : g.get p1 p2 ≤ 9 := hval p1 hp1 p2 hp2
  have hw1 : 1 ≤ g.get p1 p2 := by
    have : g.get p1 p2 ≠ 0 := by
      rw [← EMPTY_CELL_eq_zero]
      exact hpne
    omega
  rw [contains_get_candidates g x y _ hw1 hw9]
  have hallfalse :
      ((peerCells x y).all (fun q => !(g.get q.1 q.2 == g.get p1 p2))) = false := by
    apply Bool.eq_false_iff.mpr
    intro htrue
    have := List.all_eq_true.mp htrue (p1, p2) hp
    simp at this
  rw [hallfalse, Bool.and_false]

/-- C4 witness: on the fully solved reference board, cell (0,0) is
assigned and its candidate set is the empty set. -/
theorem c4_witness :
    ValidGrid (Grid.ofList solvedList) ∧
    get_candidates (Grid.ofList solvedList) 0 0 = ValueSet.empty := by
  refine ⟨by decide, ?_⟩
  exact (c4_get_candidates_no_peer_conflicts (Grid.ofList solvedList) (by decide)
    0 (by norm_num) 0 (by norm_num)).1 (by decide)

/-! ### Claim C5 -/

/-- C5 counterexample: storing the out-of-range value 13 at in-range
coordinates does not abort — `Grid::set` checks only the coordinates, so
the claim that it fails for values outside 0..9 is false. -/
theorem c5_set_value_unchecked_counterexample :
    9 < 13 ∧ ((Grid.ofList emptyList).set? 13 0 0).isSome = true := by
  decide

/-- C5 (amended): `get` and `set` abort exactly when a coordinate is
outside 0..9 (the `get_index` assertion); the stored value itself is
never checked — `set` succeeds for every value at in-range coordinates. -/
theorem c5_grid_access_checks :
    ∀ (g : Grid) (v x y : Nat),
      ((g.get? x y).isSome = true ↔ (x < 9 ∧ y < 9)) ∧
      ((g.set? v x y).isSome = true ↔ (x < 9 ∧ y < 9)) := by
  intro g v x y
  constructor
  · rw [Grid.get?, get_index?]
    split
    · next h => simp [h]
    · next h => simpa using h
  · rw [Grid.set?, get_index?]
    split
    · next h => simp [h]
    · next h => simpa using h

/-! ### Claim C6 -/

/-- C6: rendering a valid board and parsing the rendered text yields a
board equal to the original cell by cell. -/
theorem c6_render_parse_roundtrip :
    ∀ g : Grid, ValidGrid g →
      ∃ g2, parse_grid g.render = some g2 ∧
        ∀ x, x < 9 → ∀ y, y < 9 → g2.get x y = g.get x y := by
  intro g hval
  refine ⟨Grid.ofList ((List.range 9).flatMap (fun y => (List.range 9).map (fun x => g.get x y))),
    ?_, ?_⟩
  · rw [parse_grid]
    simp only [nums_of_render g hval, NUM_CELLS_eq, rowmajor_length, if_true]
  · intro x hx y hy
    exact ofList_rowmajor_get g x y hx hy

/-- C6 witness: round-tripping the solved reference board reproduces its
cell (0,0). -/
theorem c6_witness :
    (parse_grid (Grid.ofList solvedList).render).map (fun g2 => g2.get 0 0)
      = some ((Grid.ofList solvedList).get 0 0) := by
  obtain ⟨g2, h1, h2⟩ := c6_render_parse_roundtrip (Grid.ofList solvedList) (by decide)
  rw [h1, Option.map_some', h2 0 (by norm_num) 0 (by norm_num)]

/-! ### Claim C7 -/

/-- C7: `candidate_fewest_choices` returns none exactly when no cell has
a positive candidate count; otherwise it returns the candidate set and
the coordinates (b % 9, b / 9) of the linear index b attaining the
smallest positive count, ties broken by the lowest linear index (every
earlier cell with a positive count has a strictly larger count). -/
theorem c7_candidate_fewest_choices_spec :
    ∀ s : SolveState,
      (s.candidate_fewest_choices = none ↔ ∀ j, j < 81 → (s.candidates j).count = 0) ∧
      (∀ (c : ValueSet) (x y : Nat), s.candidate_fewest_choices = some (c, x, y) →
        ∃ b, b < 81 ∧ x = b % 9 ∧ y = b / 9 ∧ c = s.candidates b ∧
          0 < (s.candidates b).count ∧
          (∀ j, j < 81 → 0 < (s.candidates j).count →
            (s.candidates b).count ≤ (s.candidates j).count) ∧
          (∀ j, j < b → 0 < (s.candidates j).count →
            (s.candidates b).count < (s.candidates j).count)) := by
  intro s
  refine ⟨cfc_none_iff s, ?_⟩
  intro c x y h
  obtain ⟨b, h1, h2, h3, h4, h5, h6, h7⟩ := cfc_some_spec s c x y h
  exact ⟨b, h1, h3, h4, h2, h5, h6, h7⟩

/-- C7 witness: on the one-empty-cell puzzle the scan does not return
none, since cell 0 has a positive candidate count. -/
theorem c7_witness :
    (SolveState.new (Grid.ofList almostList)).candidate_fewest_choices ≠ none := by
  intro hcon
  have h := (c7_candidate_fewest_choices_spec
    (SolveState.new (Grid.ofList almostList))).1.mp hcon 0 (by norm_num)
  revert h
  decide

/-! ### Claim C8 -/

/-- The puzzle has exactly one solution: some full, consistent, valid
grid extends the input, and any two such grids agree on every cell. -/
def UniqueSolution (g : Grid) : Prop :=
  ∃ sol, IsSolutionOf sol g ∧
    ∀ s2, IsSolutionOf s2 g → ∀ x, x < 9 → ∀ y, y < 9 → s2.get x y = sol.get x y

/-- C8: on every input board whose puzzle has exactly one solution, the
sequential and the parallel solver return the same solved board (they
agree, and they do return a board). -/
theorem c8_par_equals_seq_on_unique :
    ∀ g : Grid, UniqueSolution g →
      solve_recursive g = solve_recursive_par g ∧ (solve_recursive g).isSome = true := by
  intro g huniq
  refine ⟨(solve_recursive_par_eq_solve_recursive g).symm, ?_⟩
  obtain ⟨sol, hsol, _⟩ := huniq
  rw [solve_recursive, solve_internal_eq_fuel]
  have hc := solveFuel_complete ((SolveState.new g).totalCands + 1) (SolveState.new g) sol
    (Nat.lt_succ_self _) (CandInv_new g) hsol
  rcases hres : solveFuel ((SolveState.new g).totalCands + 1) (SolveState.new g) with _ | t
  · rw [hres] at hc
    cases hc
  · rfl

/-- C8 witness: the already solved reference board is its own unique
solution; both solvers return the same board on it. -/
theorem c8_witness :
    solve_recursive (Grid.ofList solvedList) = solve_recursive_par (Grid.ofList solvedList) ∧
    (solve_recursive (Grid.ofList solvedList)).isSome = true := by
  apply c8_par_equals_seq_on_unique
  have hfull : FullyAssigned (Grid.ofList solvedList) := by decide
  refine ⟨Grid.ofList solvedList, ⟨hfull, by decide, by decide, fun x hx y hy _ => rfl⟩, ?_⟩
  intro s2 hs2 x hx y hy
  exact hs2.2.2.2 x hx y hy (hfull x hx y hy)

/-! ### Claim C10 -/

/-- C10: whenever `solve_recursive` returns a grid, it agrees with the
input grid on every cell the input had assigned (the search writes only
cells that were empty). -/
theorem c10_solver_preserves_assigned_cells :
    ∀ (g g2 : Grid), solve_recursive g = some g2 →
      ∀ x, x < 9 → ∀ y, y < 9 → g.get x y ≠ EMPTY_CELL → g2.get x y = g.get x y := by
  intro g g2 hsolve
  rw [solve_recursive, Option.map_eq_some'] at hsolve
  obtain ⟨t, ht, hgrid⟩ := hsolve
  rw [solve_internal_eq_fuel] at ht
  have hs := solveFuel_sound _ _ _ (Nat.lt_succ_self _) (CandInv_new g) ht
  subst hgrid
  exact hs.2.2.1

/-- C10 witness: solving the one-empty-cell puzzle leaves the assigned
cell (1,0) at its input value 2. -/
theorem c10_witness :
    (Grid.ofList almostList).get 1 0 ≠ EMPTY_CELL ∧
    ((solve_recursive (Grid.ofList almostList)).getD (Grid.ofList almostList)).get 1 0
      = (Grid.ofList almostList).get 1 0 := by
  have hsome : (solve_recursive (Grid.ofList almostList)).isSome = true := by
    rw [solve_recursive_eq_fuel]
    decide
  have heq : solve_recursive (Grid.ofList almostList)
      = some ((solve_recursive (Grid.ofList almostList)).getD (Grid.ofList almostList)) := by
    rcases h : solve_recursive (Grid.ofList almostList) with _ | g2
    · rw [h] at hsome
      cases hsome
    · rfl
  refine ⟨by decide, ?_⟩
  exact c10_solver_preserves_assigned_cells (Grid.ofList almostList) _ heq
    1 (by norm_num) 0 (by norm_num) (by decide)
